import Mathlib

set_option maxRecDepth 8000

/-!
Verification of the media-asset subsystem: identity resolution (`findByUrl`),
idempotent create-or-merge (`create`), description reconciliation
(`saveDescriptions` / `reconcileDescriptions`), batch operations
(`batchCreate`, `batchSaveDescriptions`), generic `update`, and record deletion
with the sandboxed file-removal guard (`remove`).

The JavaScript service is embedded shallowly: Mongo documents become Lean
structures, the document store becomes a `List MediaAsset`, asynchronous calls
become pure functions threading the store, thrown errors become explicit
result constructors, and the clock / ObjectId generator become explicit `now` /
counter arguments.  Helper modules that are not part of the provided sources
(the url normalizer, the path validator and the Mongoose model) are modelled
from the specification; each such definition is marked in its doc comment.
-/

namespace MediaRepo

/-- Whitespace test used by the embedding of JavaScript `String.prototype.trim`. -/
def isWS (c : Char) : Bool :=
  c = ' ' || c = '\t' || c = '\n' || c = '\r'

/-- Embedding of JavaScript `text.trim()`: drop whitespace from both ends. -/
def trimText (s : String) : String :=
  String.mk (((s.toList.dropWhile isWS).reverse.dropWhile isWS).reverse)

/-- Lower-case one ASCII character (embedding of the case-insensitive `i` regex flag). -/
def lowerChar (c : Char) : Char :=
  if 'A' ≤ c && c ≤ 'Z' then Char.ofNat (c.toNat + 32) else c

/-- Lower-case a string, ASCII-wise. -/
def strToLower (s : String) : String :=
  String.mk (s.toList.map lowerChar)

/-- Embedding of JavaScript `s.startsWith(p)`. -/
def strStartsWith (s p : String) : Bool :=
  p.toList.isPrefixOf s.toList

/-- Embedding of JavaScript `s.substring(n)` / `s.slice(n)`. -/
def strDrop (s : String) (n : Nat) : String :=
  String.mk (s.toList.drop n)

/-- Boolean test that `p` occurs as a contiguous run inside `l` (the effect of
an unanchored regex whose metacharacters are escaped). -/
def substrCheck (p : List Char) : List Char → Bool
  | [] => p.isEmpty
  | c :: rest => p.isPrefixOf (c :: rest) || substrCheck p rest

/-- Helper for `splitOnChar`. -/
def splitOnCharAux (c : Char) : List Char → List Char → List String
  | [], acc => [String.mk acc.reverse]
  | x :: xs, acc =>
      if x = c then String.mk acc.reverse :: splitOnCharAux c xs []
      else splitOnCharAux c xs (x :: acc)

/-- Embedding of JavaScript `s.split(c)` for a one-character separator. -/
def splitOnChar (c : Char) (s : String) : List String :=
  splitOnCharAux c s.toList []

/-- Join path segments with a separator (embedding of `path.join`-style joining). -/
def joinWith (sep : String) : List String → String
  | [] => ""
  | [x] => x
  | x :: y :: xs => x ++ sep ++ joinWith sep (y :: xs)

/-- One attached description subdocument: `{ _id, text, createdAt }`.
Mongo ObjectIds and timestamps are modelled as `Nat`. -/
structure Description where
  id : Nat
  text : String
  createdAt : Nat
deriving DecidableEq

/-- One entry of the desired list passed to `saveDescriptions`:
`{ _id?: descriptionId, text }`. -/
structure DescEntry where
  id : Option Nat
  text : String
deriving DecidableEq

/-- A MediaAsset document as stored by the service. -/
structure MediaAsset where
  id : Nat
  type : String
  url : String
  filename : String
  size : Nat
  mimetype : String
  descriptions : List Description
  isAddedToLibrary : Bool
  createdAt : Nat
deriving DecidableEq

/-- Payload of `create` / one item of `batchCreate`.  Absent optional fields are
encoded the way the JavaScript defaults produce them: `""` for strings, `0` for
the size, `[]` for the description texts (all of which are falsy in JS). -/
structure CreateData where
  type : String
  url : String
  filename : String
  size : Nat
  mimetype : String
  descriptions : List String
deriving DecidableEq

/-- Valid media kinds, from `config/mediaType.js`. -/
def MEDIA_TYPE_VALUES : List String :=
  ["image", "video", "document", "archive", "text", "other"]

/-- Embedding of `isValidMediaType` from `config/mediaType.js`. -/
def isValidMediaType (t : String) : Bool :=
  MEDIA_TYPE_VALUES.contains t

/-- Strip the scheme and host of an absolute http(s) URL, keeping the path part
(everything from the first `/` after the host); other strings pass through. -/
def stripSchemeHost (s : String) : String :=
  if strStartsWith s "http://" then
    String.mk ((strDrop s 7).toList.dropWhile (fun c => c ≠ '/'))
  else if strStartsWith s "https://" then
    String.mk ((strDrop s 8).toList.dropWhile (fun c => c ≠ '/'))
  else s

/-- Modelled from the spec: `normalizeUrl` from `utils/urlUtils.js` is not among
the provided sources.  Per the Locator Normalizer section it canonicalizes an
arbitrary locator (absolute URL, rooted path or bare relative path) with no
failure mode and empty input mapping to empty output; the scheme and host of an
absolute URL are dropped so that identity is recoverable from any form. -/
def normalizeUrl (s : String) : String :=
  stripSchemeHost s

/-- Modelled from the spec: `normalizeUrlForStorage` from `utils/urlUtils.js` is
not among the provided sources.  It returns the single canonical storage form
of a locator: the normalized path, rooted with a leading separator (empty input
maps to empty output). -/
def normalizeUrlForStorage (s : String) : String :=
  let n := normalizeUrl s
  if n = "" then "" else if strStartsWith n "/" then n else "/" ++ n

/-- The `$or` predicate of `findByUrl`: the document's `url` equals the original
query string, the normalized form, the normalized form with a leading slash, the
normalized form without a leading slash, or matches the case-insensitive regex
built from the normalized form with metacharacters escaped (an escaped,
unanchored regex is a literal case-insensitive substring test). -/
def urlMatches (query : String) (a : MediaAsset) : Bool :=
  let n := normalizeUrl query
  let ws := if strStartsWith n "/" then n else "/" ++ n
  let wos := if strStartsWith n "/" then strDrop n 1 else n
  decide (a.url = query) || decide (a.url = n) || decide (a.url = ws) ||
    decide (a.url = wos) ||
    substrCheck (strToLower n).toList (strToLower a.url).toList

/-- Embedding of `findByUrl`: `null` for an empty locator, `null` when the
underlying storage query throws (the `catch` branch, modelled by the
`queryFails` flag), otherwise the first stored document satisfying the `$or`
predicate. -/
def findByUrl (queryFails : Bool) (store : List MediaAsset) (url : String) :
    Option MediaAsset :=
  if url = "" then none
  else if queryFails then none
  else store.find? (urlMatches url)

/-! ### Description reconciliation (`saveDescriptions`) -/

/-- Embedding of `Map.prototype.set` on the id → text map: replace the binding
if the key is present, otherwise append it. -/
def mapSet (m : List (Nat × String)) (k : Nat) (v : String) : List (Nat × String) :=
  match m with
  | [] => [(k, v)]
  | (k', v') :: rest => if k' = k then (k, v) :: rest else (k', v') :: mapSet rest k v

/-- Embedding of `Map.prototype.get` (with `has` being `isSome`). -/
def mapGet (m : List (Nat × String)) (k : Nat) : Option String :=
  match m with
  | [] => none
  | (k', v) :: rest => if k' = k then some v else mapGet rest k

/-- Embedding of `Map.prototype.delete`: drop the binding for the key. -/
def mapDelete (m : List (Nat × String)) (k : Nat) : List (Nat × String) :=
  match m with
  | [] => []
  | (k', v) :: rest => if k' = k then rest else (k', v) :: mapDelete rest k

/-- First pass of `saveDescriptions` over the desired list, in program order:
trim each entry's text and skip it when empty; an entry with an `_id` is set
into `newDescMap`, an entry without one has its trimmed text appended to
`descriptionsToAdd`.  The two accumulators are threaded explicitly. -/
def buildDesired (m : List (Nat × String)) (adds : List String) :
    List DescEntry → List (Nat × String) × List String
  | [] => (m, adds)
  | d :: ds =>
      let t := trimText d.text
      if t = "" then buildDesired m adds ds
      else
        match d.id with
        | some i => buildDesired (mapSet m i t) adds ds
        | none => buildDesired m (adds ++ [t]) ds

/-- Second pass of `saveDescriptions` over the asset's current descriptions, in
their existing order: an entry whose id is in the map is retained with the
desired text and the binding is deleted from the map; any other entry is
dropped. -/
def keepCurrent : List Description → List (Nat × String) → List Description
  | [], _ => []
  | c :: cs, m =>
      match mapGet m c.id with
      | some t => { c with text := t } :: keepCurrent cs (mapDelete m c.id)
      | none => keepCurrent cs m

/-- Attach fresh ids (`start`, `start+1`, …) and the generation timestamp `now`
to newly created description texts (the ids Mongoose generates on save). -/
def assignIds (now : Nat) : Nat → List String → List Description
  | _, [] => []
  | start, t :: ts => ⟨start, t, now⟩ :: assignIds now (start + 1) ts

/-- The pure reconciliation core of `saveDescriptions`: the persisted list is
the retained entries (original relative order) followed by the newly created
entries (desired-list order). -/
def reconcileDescriptions (current : List Description) (desired : List DescEntry)
    (now start : Nat) : List Description :=
  let (m, adds) := buildDesired [] [] desired
  keepCurrent current m ++ assignIds now start adds

/-- Ids of the identified desired entries that survive the empty-text drop. -/
def identifiedIds (ds : List DescEntry) : List Nat :=
  ds.filterMap (fun d => if trimText d.text = "" then none else d.id)

/-- Trimmed texts of the id-less desired entries that survive the empty-text
drop, in desired-list order. -/
def newTexts (ds : List DescEntry) : List String :=
  ds.filterMap (fun d =>
    match d.id with
    | some _ => none
    | none => if trimText d.text = "" then none else some (trimText d.text))

/-- Last-occurrence-wins lookup of the desired text for an identified id
(the observable content of `newDescMap`). -/
def lookupDesired : List DescEntry → Nat → Option String
  | [], _ => none
  | d :: ds, i =>
      match lookupDesired ds i with
      | some t => some t
      | none =>
          if d.id = some i ∧ trimText d.text ≠ "" then some (trimText d.text)
          else none

/-! ### Create-or-merge (`create`) -/

/-- Candidate description texts of a merge, from `create`: keep the texts whose
trim is non-empty, trim them, and keep only those not already present verbatim
among the asset's current descriptions. -/
def candidateTexts (existing : List Description) (texts : List String) : List String :=
  ((texts.filter (fun t => trimText t ≠ "")).map (fun t => trimText t)).filter
    (fun t => ¬ existing.any (fun e => e.text = t))

/-- The merge branch of `create`: overwrite filename / size / mimetype when a
truthy new value differs, append the deduplicated new descriptions, force
`isAddedToLibrary`, and report whether anything changed (`hasUpdate`). -/
def mergeAsset (m : MediaAsset) (d : CreateData) (now start : Nat) :
    MediaAsset × Bool :=
  let hasF := decide (d.filename ≠ "") && decide (m.filename ≠ d.filename)
  let m1 := if hasF then { m with filename := d.filename } else m
  let hasS := decide (d.size ≠ 0) && decide (m.size ≠ d.size)
  let m2 := if hasS then { m1 with size := d.size } else m1
  let hasM := decide (d.mimetype ≠ "") && decide (m.mimetype ≠ d.mimetype)
  let m3 := if hasM then { m2 with mimetype := d.mimetype } else m2
  let newDs := assignIds now start (candidateTexts m.descriptions d.descriptions)
  let hasD := decide (newDs ≠ [])
  let m4 := if hasD then { m3 with descriptions := m3.descriptions ++ newDs } else m3
  let hasL := decide (m.isAddedToLibrary = false)
  let m5 := if hasL then { m4 with isAddedToLibrary := true } else m4
  (m5, hasF || hasS || hasM || hasD || hasL)

/-- The creation branch of `create`: a fresh document with the given fields,
`isAddedToLibrary` forced to `true`, the raw (untrimmed, unfiltered)
description texts, and fresh ids / timestamp supplied by the environment. -/
def newAsset (d : CreateData) (now start : Nat) : MediaAsset :=
  { id := start
    type := d.type
    url := d.url
    filename := d.filename
    size := d.size
    mimetype := d.mimetype
    descriptions := assignIds now (start + 1) d.descriptions
    isAddedToLibrary := true
    createdAt := now }

/-- Embedding of `document.save()`: replace the stored document with the same id. -/
def saveAsset (store : List MediaAsset) (m : MediaAsset) : List MediaAsset :=
  store.map (fun x => if x.id = m.id then m else x)

/-- Outcome of `create`: either the updated store with the returned document,
or a thrown error. -/
inductive CreateResult where
  | ok (store : List MediaAsset) (asset : MediaAsset)
  | err
deriving DecidableEq

/-- Embedding of `create`.  The locator is normalized for storage, identity is
resolved with `findByUrl`; a hit is merged in place (persisted only when
something changed) and returned; a miss inserts a fresh document.  `raced`
models documents committed concurrently between the lookup and the insert: the
insert is rejected by the unique-locator constraint (Mongo error 11000,
modelled from the spec's unique canonical-locator invariant, the model file not
being among the sources) precisely when the full store already holds the url,
in which case identity is re-resolved and the existing record returned; an
unresolvable conflict rethrows.  `storageFail` models any other persistence
failure of the insert, which propagates. -/
def create (storageFail : Bool) (raced : List MediaAsset)
    (store : List MediaAsset) (d : CreateData) (now start : Nat) : CreateResult :=
  let nurl := normalizeUrlForStorage d.url
  let d' := { d with url := nurl }
  match findByUrl false store nurl with
  | some m =>
      let (m', hasUpdate) := mergeAsset m d' now start
      .ok (if hasUpdate then saveAsset store m' else store) m'
  | none =>
      if storageFail then .err
      else
        let full := store ++ raced
        if full.any (fun a => decide (a.url = nurl)) then
          match findByUrl false full nurl with
          | some m => .ok full m
          | none => .err
        else .ok (full ++ [newAsset d' now start]) (newAsset d' now start)

/-! ### The remaining single-item operations -/

/-- Caller-supplied `$set` payload of `update` (a representative subset of the
schema fields; the JavaScript passes the caller's object through verbatim). -/
structure UpdateFields where
  filename : Option String
  size : Option Nat
  mimetype : Option String
  isAddedToLibrary : Option Bool
deriving DecidableEq

/-- Mongo `$set` semantics: overwrite exactly the provided fields. -/
def applySet (m : MediaAsset) (u : UpdateFields) : MediaAsset :=
  { m with
    filename := u.filename.getD m.filename
    size := u.size.getD m.size
    mimetype := u.mimetype.getD m.mimetype
    isAddedToLibrary := u.isAddedToLibrary.getD m.isAddedToLibrary }

/-- Embedding of `update` (`findByIdAndUpdate` with `$set`): `none` when the id
does not resolve, otherwise the updated document and store. -/
def update (store : List MediaAsset) (mediaId : Nat) (u : UpdateFields) :
    Option MediaAsset × List MediaAsset :=
  match store.find? (fun m => decide (m.id = mediaId)) with
  | none => (none, store)
  | some m => (some (applySet m u), saveAsset store (applySet m u))

/-- Embedding of `addDescription`: push one raw (untrimmed, undeduplicated)
description onto the asset and save; `none` models the thrown NotFound. -/
def addDescription (store : List MediaAsset) (mediaId : Nat) (text : String)
    (now fresh : Nat) : Option (MediaAsset × List MediaAsset) :=
  match store.find? (fun m => decide (m.id = mediaId)) with
  | none => none
  | some m =>
      let m' := { m with descriptions := m.descriptions ++ [⟨fresh, text, now⟩] }
      some (m', saveAsset store m')

/-- Embedding of `removeDescription`: delete the one subdocument with the given
id and save; `none` models the thrown NotFound (asset or description). -/
def removeDescription (store : List MediaAsset) (mediaId descriptionId : Nat) :
    Option (MediaAsset × List MediaAsset) :=
  match store.find? (fun m => decide (m.id = mediaId)) with
  | none => none
  | some m =>
      match m.descriptions.find? (fun dd => decide (dd.id = descriptionId)) with
      | none => none
      | some _ =>
          let m' := { m with
            descriptions := m.descriptions.filter (fun dd => decide (dd.id ≠ descriptionId)) }
          some (m', saveAsset store m')

/-- Embedding of `updateDescription`: overwrite the text of the one subdocument
with the given id and save; `none` models the thrown NotFound. -/
def updateDescription (store : List MediaAsset) (mediaId descriptionId : Nat)
    (newText : String) : Option (MediaAsset × List MediaAsset) :=
  match store.find? (fun m => decide (m.id = mediaId)) with
  | none => none
  | some m =>
      match m.descriptions.find? (fun dd => decide (dd.id = descriptionId)) with
      | none => none
      | some _ =>
          let m' := { m with
            descriptions := m.descriptions.map
              (fun dd => if dd.id = descriptionId then { dd with text := newText } else dd) }
          some (m', saveAsset store m')

/-- Embedding of the store-level `saveDescriptions`: resolve the asset by id
(`none` models the thrown NotFound), reconcile its description list against the
desired list, and persist in one write. -/
def saveDescriptions (store : List MediaAsset) (mediaId : Nat)
    (descs : List DescEntry) (now start : Nat) :
    Option (MediaAsset × List MediaAsset) :=
  match store.find? (fun m => decide (m.id = mediaId)) with
  | none => none
  | some m =>
      let m' := { m with descriptions := reconcileDescriptions m.descriptions descs now start }
      some (m', saveAsset store m')

/-! ### Record deletion and the file-removal guard (`remove`) -/

/-- Modelled from the spec: `cleanFilePath` from `utils/urlUtils.js` is not
among the provided sources.  Per the Deletion Guard section it strips the known
internal routing `/api` prefix and any query string from the extracted path. -/
def cleanFilePath (p : String) : String :=
  let noQuery := String.mk (p.toList.takeWhile (fun c => c ≠ '?'))
  if strStartsWith noQuery "/api/" then strDrop noQuery 4 else noQuery

/-- Resolve a relative path's segments, interpreting `.` , `..` and empty
segments; `none` when the path climbs above the sandbox root. -/
def resolveRel (extra : List String) : List String → Option (List String)
  | [] => some extra
  | seg :: rest =>
      if seg = "" ∨ seg = "." then resolveRel extra rest
      else if seg = ".." then
        match extra with
        | [] => none
        | _ => resolveRel extra.dropLast rest
      else resolveRel (extra ++ [seg]) rest

/-- Result shape of the file-removal capability:
`{ success, resolvedPath?, error? }`. -/
structure DeleteFileResult where
  success : Bool
  path : String
  error : String
deriving DecidableEq

/-- Modelled from the spec: `safeDeleteFile` from `utils/pathValidator.js` is
not among the provided sources.  Per the Deletion Guard section it resolves the
cleaned path against the configured public root, rejects — without throwing —
any path that escapes the root or misses the required `uploads` category
prefix, and otherwise removes the backing file, reporting failure when the
file is absent.  The filesystem is modelled as the list of existing absolute
paths. -/
def safeDeleteFile (fsys : List String) (cleanPath publicDir : String)
    (requireUploads : Bool) : DeleteFileResult × List String :=
  match resolveRel [] (splitOnChar '/' cleanPath) with
  | none => (⟨false, "", "outside root"⟩, fsys)
  | some segs =>
      if requireUploads && !(decide (segs.head? = some "uploads")) then
        (⟨false, "", "missing uploads category"⟩, fsys)
      else
        let full := publicDir ++ "/" ++ joinWith "/" segs
        if full ∈ fsys then (⟨true, full, ""⟩, fsys.erase full)
        else (⟨false, full, "file not found"⟩, fsys)

/-- Result of `remove`: the deleted document (`none` when the id did not
resolve), the store and filesystem afterwards, and the file-removal outcome
(`none` when the file branch was skipped or threw). -/
structure RemoveResult where
  doc : Option MediaAsset
  store : List MediaAsset
  fsys : List String
  fileOutcome : Option DeleteFileResult
deriving DecidableEq

/-- Embedding of `remove`: resolve the record; when found, best-effort delete
the backing file — extract the path component of a full URL, clean it, and call
the sandboxed `safeDeleteFile` with the uploads-category requirement; a thrown
filesystem error (`fsThrows`) is caught and only logged — then delete the
record itself unconditionally. -/
def remove (store : List MediaAsset) (fsys : List String) (publicDir : String)
    (fsThrows : Bool) (id : Nat) : RemoveResult :=
  match store.find? (fun m => decide (m.id = id)) with
  | none => ⟨none, store, fsys, none⟩
  | some media =>
      let fileStep : List String × Option DeleteFileResult :=
        if media.url ≠ "" then
          if fsThrows then (fsys, none)
          else
            let filePath :=
              if strStartsWith media.url "http://" || strStartsWith media.url "https://" then
                stripSchemeHost media.url
              else media.url
            let (res, fsys') := safeDeleteFile fsys (cleanFilePath filePath) publicDir true
            (fsys', some res)
        else (fsys, none)
      ⟨some media, store.filter (fun m => decide (m.id ≠ id)), fileStep.1, fileStep.2⟩

/-! ### Batch operations -/

/-- One success entry of `batchCreate`: `{ url, success: true, media, isExisting }`. -/
structure BatchCreateOk where
  url : String
  media : MediaAsset
  isExisting : Bool
deriving DecidableEq

/-- One failure entry of `batchCreate`: `{ url | 'unknown', error }`. -/
structure BatchFail where
  key : String
  error : String
deriving DecidableEq

/-- Aggregate result of a batch call:
`{ success, failed, total, successCount, failCount }`. -/
structure BatchResult (σ φ : Type) where
  success : List σ
  failed : List φ
  total : Nat
  successCount : Nat
  failCount : Nat
deriving DecidableEq

/-- Loop state of a batch call: accumulated successes and failures plus the
threaded store and id counter. -/
structure BatchCreateState where
  oks : List BatchCreateOk
  fails : List BatchFail
  store : List MediaAsset
  ctr : Nat
deriving DecidableEq

/-- One iteration of the `batchCreate` loop: validate the required fields and
the media kind, delegate to `create`, convert any thrown error into a failure
entry, and classify created-vs-existing by the 2000 ms elapsed-time heuristic
(`isNew = now - createdAt < 2000`, with a falsy `createdAt` read as `now`). -/
def batchCreateStep (now : Nat) (st : BatchCreateState) (item : CreateData) :
    BatchCreateState :=
  if item.type = "" ∨ item.url = "" then
    { st with fails := st.fails ++
        [⟨if item.url = "" then "unknown" else item.url, "Type and URL are required"⟩] }
  else if !isValidMediaType item.type then
    { st with fails := st.fails ++ [⟨item.url, "Invalid file type"⟩] }
  else
    match create false [] st.store item now st.ctr with
    | .ok store' m =>
        let ca := if m.createdAt = 0 then now else m.createdAt
        let isNew := decide (now - ca < 2000)
        { st with
          oks := st.oks ++ [⟨item.url, m, !isNew⟩]
          store := store'
          ctr := st.ctr + 1 + item.descriptions.length }
    | .err => { st with fails := st.fails ++ [⟨item.url, "create failed"⟩] }

/-- Embedding of `batchCreate`: fail fast on an empty batch, otherwise process
the items sequentially with `batchCreateStep` and aggregate. -/
def batchCreate (store : List MediaAsset) (items : List CreateData)
    (now ctr : Nat) :
    Except Unit (BatchResult BatchCreateOk BatchFail × List MediaAsset × Nat) :=
  if items.isEmpty then .error ()
  else
    let st := items.foldl (batchCreateStep now) ⟨[], [], store, ctr⟩
    .ok (⟨st.oks, st.fails, items.length, st.oks.length, st.fails.length⟩, st.store, st.ctr)

deriving instance DecidableEq for Except

/-- One item of `batchSaveDescriptions`: `{ id?, descriptions? }` (a `none`
descriptions field models a payload that is not an array). -/
structure SaveDescItem where
  id : Option Nat
  descriptions : Option (List DescEntry)
deriving DecidableEq

/-- One success entry of `batchSaveDescriptions`: `{ id, success: true, media }`. -/
structure BatchSaveOk where
  id : Nat
  media : MediaAsset
deriving DecidableEq

/-- One failure entry of `batchSaveDescriptions`: the item key (`none` models
the literal `'unknown'`) and the error. -/
structure BatchSaveFail where
  id : Option Nat
  error : String
deriving DecidableEq

/-- Loop state of `batchSaveDescriptions`. -/
structure BatchSaveState where
  oks : List BatchSaveOk
  fails : List BatchSaveFail
  store : List MediaAsset
  ctr : Nat
deriving DecidableEq

/-- One iteration of the `batchSaveDescriptions` loop: validate the id and the
descriptions array, delegate to `saveDescriptions`, and convert its NotFound
into a failure entry. -/
def batchSaveStep (now : Nat) (st : BatchSaveState) (item : SaveDescItem) :
    BatchSaveState :=
  match item.id with
  | none => { st with fails := st.fails ++ [⟨none, "Media ID is required"⟩] }
  | some i =>
      match item.descriptions with
      | none => { st with fails := st.fails ++ [⟨some i, "Descriptions must be an array"⟩] }
      | some ds =>
          match saveDescriptions st.store i ds now st.ctr with
          | none => { st with fails := st.fails ++ [⟨some i, "Media item not found"⟩] }
          | some (m', store') =>
              { st with
                oks := st.oks ++ [⟨i, m'⟩]
                store := store'
                ctr := st.ctr + ds.length }

/-- Embedding of `batchSaveDescriptions`: fail fast on an empty batch,
otherwise process the items sequentially with `batchSaveStep` and aggregate. -/
def batchSaveDescriptions (store : List MediaAsset) (items : List SaveDescItem)
    (now ctr : Nat) :
    Except Unit (BatchResult BatchSaveOk BatchSaveFail × List MediaAsset × Nat) :=
  if items.isEmpty then .error ()
  else
    let st := items.foldl (batchSaveStep now) ⟨[], [], store, ctr⟩
    .ok (⟨st.oks, st.fails, items.length, st.oks.length, st.fails.length⟩, st.store, st.ctr)

/-! ### Lemmas about the id → text map -/

theorem mapGet_mapSet (m : List (Nat × String)) (k : Nat) (v : String) (i : Nat) :
    mapGet (mapSet m k v) i = if i = k then some v else mapGet m i := by
  induction m with
  | nil =>
      by_cases h : i = k
      · simp [mapSet, mapGet, h]
      · simp [mapSet, mapGet, h, Ne.symm h]
  | cons p rest ih =>
      obtain ⟨k', v'⟩ := p
      by_cases hk : k' = k
      · rw [show mapSet ((k', v') :: rest) k v = (k, v) :: rest by simp [mapSet, hk]]
        by_cases h : i = k
        · simp [mapGet, h]
        · simp [mapGet, h, Ne.symm h, hk]
      · rw [show mapSet ((k', v') :: rest) k v = (k', v') :: mapSet rest k v by
          simp [mapSet, hk]]
        by_cases h : k' = i
        · have hik : ¬ i = k := fun hh => hk (h.trans hh)
          simp [mapGet, h, hik]
        · simp [mapGet, h, ih]

theorem mapGet_mapDelete_ne (m : List (Nat × String)) (k i : Nat) (h : i ≠ k) :
    mapGet (mapDelete m k) i = mapGet m i := by
  induction m with
  | nil => rfl
  | cons p rest ih =>
      obtain ⟨k', v'⟩ := p
      by_cases hk : k' = k
      · rw [show mapDelete ((k', v') :: rest) k = rest by simp [mapDelete, hk]]
        have hki : ¬ k' = i := fun hh => h (hh.symm.trans hk)
        simp [mapGet, hki]
      · rw [show mapDelete ((k', v') :: rest) k = (k', v') :: mapDelete rest k by
          simp [mapDelete, hk]]
        by_cases hi : k' = i
        · simp [mapGet, hi]
        · simp [mapGet, hi, ih]

/-! ### Lemmas about the first pass over the desired list -/

theorem buildDesired_fst_get (ds : List DescEntry) :
    ∀ m adds i, mapGet (buildDesired m adds ds).1 i =
      match lookupDesired ds i with
      | some t => some t
      | none => mapGet m i := by
  induction ds with
  | nil => intro m adds i; rfl
  | cons d ds ih =>
      intro m adds i
      by_cases ht : trimText d.text = ""
      · rw [show buildDesired m adds (d :: ds) = buildDesired m adds ds by
          simp [buildDesired, ht]]
        rw [ih]
        have hcond : ¬ (d.id = some i ∧ trimText d.text ≠ "") := fun hc => hc.2 ht
        cases hl : lookupDesired ds i <;> simp [lookupDesired, hl, hcond]
      · cases hid : d.id with
        | some j =>
            rw [show buildDesired m adds (d :: ds) =
                buildDesired (mapSet m j (trimText d.text)) adds ds by
              simp [buildDesired, ht, hid]]
            rw [ih]
            cases hl : lookupDesired ds i with
            | some t => simp [lookupDesired, hl]
            | none =>
                rw [mapGet_mapSet]
                by_cases hij : i = j
                · subst hij
                  have hcond : d.id = some i ∧ trimText d.text ≠ "" := ⟨hid, ht⟩
                  simp [lookupDesired, hl, hcond]
                · have hcond : ¬ (d.id = some i ∧ trimText d.text ≠ "") := by
                    rw [hid]; intro hc
                    exact hij (Option.some.inj hc.1).symm
                  simp [lookupDesired, hl, hcond, hij]
        | none =>
            rw [show buildDesired m adds (d :: ds) =
                buildDesired m (adds ++ [trimText d.text]) ds by
              simp [buildDesired, ht, hid]]
            rw [ih]
            have hcond : ¬ (d.id = some i ∧ trimText d.text ≠ "") := by
              rw [hid]; intro hc; cases hc.1
            cases hl : lookupDesired ds i <;> simp [lookupDesired, hl, hcond]

theorem buildDesired_snd (ds : List DescEntry) :
    ∀ m adds, (buildDesired m adds ds).2 = adds ++ newTexts ds := by
  induction ds with
  | nil => intro m adds; simp [buildDesired, newTexts]
  | cons d ds ih =>
      intro m adds
      by_cases ht : trimText d.text = ""
      · cases hid : d.id <;>
          simp [buildDesired, ht, hid, ih, newTexts, List.filterMap_cons]
      · cases hid : d.id with
        | some j => simp [buildDesired, ht, hid, ih, newTexts, List.filterMap_cons]
        | none => simp [buildDesired, ht, hid, ih, newTexts, List.filterMap_cons]

/-! ### Lemmas about `lookupDesired` -/

theorem lookupDesired_eq_none (ds : List DescEntry) (i : Nat) :
    lookupDesired ds i = none ↔ ∀ d ∈ ds, d.id = some i → trimText d.text = "" := by
  induction ds with
  | nil => simp [lookupDesired]
  | cons d ds ih =>
      cases hl : lookupDesired ds i with
      | some t =>
          simp only [lookupDesired, hl]
          constructor
          · intro h; cases h
          · intro h
            have := ih.mpr (fun d' hd' => h d' (List.mem_cons_of_mem d hd'))
            rw [this] at hl; cases hl
      | none =>
          simp only [lookupDesired, hl]
          by_cases hc : d.id = some i ∧ trimText d.text ≠ ""
          · simp only [if_pos hc]
            constructor
            · intro h; cases h
            · intro h; exact absurd (h d (List.mem_cons_self d ds) hc.1) hc.2
          · simp only [if_neg hc]
            constructor
            · intro _ d' hd' hid
              rcases List.mem_cons.mp hd' with rfl | hmem
              · by_contra hne
                exact hc ⟨hid, hne⟩
              · exact ih.mp hl d' hmem hid
            · intro _; trivial

theorem lookupDesired_some_mem (ds : List DescEntry) (i : Nat) (t : String)
    (h : lookupDesired ds i = some t) :
    ∃ d ∈ ds, d.id = some i ∧ trimText d.text = t ∧ t ≠ "" := by
  induction ds with
  | nil => cases h
  | cons d ds ih =>
      simp only [lookupDesired] at h
      cases hl : lookupDesired ds i with
      | some t' =>
          rw [hl] at h
          obtain ⟨d', hd', hprop⟩ := ih (hl.trans (by rw [← h]))
          exact ⟨d', List.mem_cons_of_mem d hd', hprop⟩
      | none =>
          rw [hl] at h
          by_cases hc : d.id = some i ∧ trimText d.text ≠ ""
          · rw [if_pos hc] at h
            refine ⟨d, List.mem_cons_self d ds, hc.1, ?_, ?_⟩
            · exact Option.some.inj h
            · rw [← Option.some.inj h]; exact hc.2
          · rw [if_neg hc] at h; cases h

theorem identifiedIds_cons (d : DescEntry) (ds : List DescEntry) :
    identifiedIds (d :: ds) =
      (if trimText d.text = "" then [] else d.id.toList) ++ identifiedIds ds := by
  cases hid : d.id <;> by_cases ht : trimText d.text = "" <;>
    simp [identifiedIds, List.filterMap_cons, hid, ht]

theorem mem_identifiedIds (ds : List DescEntry) (i : Nat) :
    i ∈ identifiedIds ds ↔ ∃ d ∈ ds, d.id = some i ∧ trimText d.text ≠ "" := by
  induction ds with
  | nil => simp [identifiedIds]
  | cons d ds ih =>
      rw [identifiedIds_cons, List.mem_append, ih]
      constructor
      · rintro (hmem | ⟨d', hd', hp⟩)
        · by_cases ht : trimText d.text = ""
          · rw [if_pos ht] at hmem; cases hmem
          · rw [if_neg ht] at hmem
            cases hid : d.id with
            | none => rw [hid] at hmem; cases hmem
            | some j =>
                rw [hid] at hmem
                simp only [Option.toList, List.mem_singleton] at hmem
                exact ⟨d, List.mem_cons_self d ds, by rw [hid, hmem], ht⟩
        · exact ⟨d', List.mem_cons_of_mem d hd', hp⟩
      · rintro ⟨d', hd', hid, ht⟩
        rcases List.mem_cons.mp hd' with rfl | hmem
        · left
          rw [if_neg ht, hid]
          simp [Option.toList]
        · right; exact ⟨d', hmem, hid, ht⟩

theorem lookupDesired_of_nodup (ds : List DescEntry) (d : DescEntry) (i : Nat)
    (hnd : (identifiedIds ds).Nodup) (hd : d ∈ ds) (hid : d.id = some i)
    (ht : trimText d.text ≠ "") :
    lookupDesired ds i = some (trimText d.text) := by
  induction ds with
  | nil => cases hd
  | cons d' ds ih =>
      rcases List.mem_cons.mp hd with rfl | hmem
      · have hl : lookupDesired ds i = none := by
          rw [lookupDesired_eq_none]
          intro e he heid
          by_contra hne
          have hmem1 : i ∈ identifiedIds ds :=
            (mem_identifiedIds ds i).mpr ⟨e, he, heid, hne⟩
          have hmem0 : i ∈ (if trimText d.text = "" then ([] : List Nat) else d.id.toList) := by
            rw [if_neg ht, hid]
            simp [Option.toList]
          rw [identifiedIds_cons d ds] at hnd
          exact (List.nodup_append.mp hnd).2.2 hmem0 hmem1
        simp only [lookupDesired, hl]
        rw [if_pos ⟨hid, ht⟩]
      · have hnd' : (identifiedIds ds).Nodup := by
          rw [identifiedIds_cons] at hnd
          exact (List.nodup_append.mp hnd).2.1
        have := ih hnd' hmem
        cases hl : lookupDesired ds i with
        | none => rw [this] at hl; cases hl
        | some t => simp only [lookupDesired, hl]; rw [← this, hl]

/-! ### Lemmas about the second pass over the current list -/

theorem keepCurrent_eq_filterMap (cs : List Description) :
    ∀ m, ((cs.map Description.id).Nodup) →
      keepCurrent cs m = cs.filterMap (fun c =>
        match mapGet m c.id with
        | some t => some { c with text := t }
        | none => none) := by
  induction cs with
  | nil => intro m _; rfl
  | cons c cs ih =>
      intro m h
      have hnd : (cs.map Description.id).Nodup := (List.nodup_cons.mp (by simpa using h)).2
      have hne : ∀ c' ∈ cs, c'.id ≠ c.id := by
        intro c' hc' he
        exact (List.nodup_cons.mp (by simpa using h)).1
          (he ▸ List.mem_map_of_mem Description.id hc')
      cases hg : mapGet m c.id with
      | none =>
          simp only [keepCurrent, hg, List.filterMap_cons]
          exact ih m hnd
      | some t =>
          simp only [keepCurrent, hg, List.filterMap_cons]
          rw [ih _ hnd]
          refine congrArg _ (List.filterMap_congr ?_)
          intro c' hc'
          rw [mapGet_mapDelete_ne _ _ _ (hne c' hc')]

theorem keepCurrent_ids_sublist (cs : List Description) :
    ∀ m, ((keepCurrent cs m).map Description.id).Sublist (cs.map Description.id) := by
  induction cs with
  | nil => intro m; simp [keepCurrent]
  | cons c cs ih =>
      intro m
      cases hg : mapGet m c.id with
      | none =>
          simpa [keepCurrent, hg] using (ih m).cons c.id
      | some t =>
          simpa [keepCurrent, hg] using (ih (mapDelete m c.id)).cons₂ c.id

theorem keepCurrent_mem_id (cs : List Description) :
    ∀ m r, r ∈ keepCurrent cs m → r.id ∈ cs.map Description.id := by
  intro m r hr
  exact (keepCurrent_ids_sublist cs m).subset (List.mem_map_of_mem Description.id hr)

/-! ### Lemmas about fresh-id assignment -/

theorem assignIds_map_text (now : Nat) :
    ∀ start ts, (assignIds now start ts).map Description.text = ts := by
  intro start ts
  induction ts generalizing start with
  | nil => rfl
  | cons t ts ih => simp [assignIds, ih]

theorem assignIds_mem (now : Nat) :
    ∀ start ts r, r ∈ assignIds now start ts →
      r.createdAt = now ∧ start ≤ r.id ∧ r.id < start + ts.length ∧ r.text ∈ ts := by
  intro start ts
  induction ts generalizing start with
  | nil => intro r hr; cases hr
  | cons t ts ih =>
      intro r hr
      rcases List.mem_cons.mp hr with rfl | hmem
      · exact ⟨rfl, Nat.le_refl _, by simp [Nat.lt_add_of_pos_right], List.mem_cons_self t ts⟩
      · obtain ⟨h1, h2, h3, h4⟩ := ih (start + 1) r hmem
        refine ⟨h1, Nat.le_of_succ_le h2, ?_, List.mem_cons_of_mem t h4⟩
        have : start + 1 + ts.length = start + (t :: ts).length := by
          simp [List.length_cons]; omega
        omega

theorem mem_assignIds_of_mem (now : Nat) :
    ∀ start ts t, t ∈ ts →
      ∃ r ∈ assignIds now start ts, r.text = t ∧ r.createdAt = now ∧ start ≤ r.id := by
  intro start ts
  induction ts generalizing start with
  | nil => intro t ht; cases ht
  | cons t' ts ih =>
      intro t ht
      rcases List.mem_cons.mp ht with rfl | hmem
      · exact ⟨⟨start, t, now⟩, List.mem_cons_self _ _, rfl, rfl, Nat.le_refl _⟩
      · obtain ⟨r, hr, hprop⟩ := ih (start + 1) t hmem
        exact ⟨r, List.mem_cons_of_mem _ hr,
          hprop.1, hprop.2.1, Nat.le_of_succ_le hprop.2.2⟩

theorem assignIds_nodup_ids (now : Nat) :
    ∀ start ts, ((assignIds now start ts).map Description.id).Nodup := by
  intro start ts
  induction ts generalizing start with
  | nil => simp [assignIds]
  | cons t ts ih =>
      simp only [assignIds, List.map_cons, List.nodup_cons]
      refine ⟨?_, ih (start + 1)⟩
      intro hmem
      obtain ⟨r, hr, hrid⟩ := List.mem_map.mp hmem
      have := (assignIds_mem now (start + 1) ts r hr).2.1
      omega

/-- An element-wise identity function leaves `filterMap` untouched. -/
theorem filterMap_eq_self_of (l : List Description)
    (f : Description → Option Description) (h : ∀ a ∈ l, f a = some a) :
    l.filterMap f = l := by
  induction l with
  | nil => rfl
  | cons a l ih =>
      rw [List.filterMap_cons, h a (List.mem_cons_self a l)]
      rw [ih (fun a' ha' => h a' (List.mem_cons_of_mem a ha'))]

/-! ### Claim C1: reconciliation correctness -/

/-- C1. Description reconciliation: for an existing asset with current
description list `current` and desired list `desired`, the persisted result of
`saveDescriptions` (its pure core `reconcileDescriptions`) satisfies: every
current entry whose id appears among the identified desired entries (those
surviving the empty-trim drop) is present in the result with the desired
trimmed text; every current entry whose id does not appear is absent; every
id-less desired entry with non-empty trimmed text is present as a newly created
entry (fresh id, generation timestamp `now`); and the result is the retained
entries in their original relative order followed by the new entries in
desired-list order.  Hypotheses: description ids are unique within the asset
(stated invariant), identified desired ids are distinct (what "D's text"
presupposes), and freshly generated ids are fresh. -/
theorem reconcile_correct (current : List Description) (desired : List DescEntry)
    (now start : Nat)
    (hC : (current.map Description.id).Nodup)
    (hD : (identifiedIds desired).Nodup)
    (hfresh : ∀ c ∈ current, c.id < start) :
    (∀ c ∈ current, ∀ d ∈ desired, d.id = some c.id → trimText d.text ≠ "" →
       { c with text := trimText d.text } ∈ reconcileDescriptions current desired now start) ∧
    (∀ c ∈ current, (∀ d ∈ desired, d.id = some c.id → trimText d.text = "") →
       ∀ r ∈ reconcileDescriptions current desired now start, r.id ≠ c.id) ∧
    (∀ d ∈ desired, d.id = none → trimText d.text ≠ "" →
       ∃ r ∈ reconcileDescriptions current desired now start,
         r.text = trimText d.text ∧ r.createdAt = now ∧ start ≤ r.id ∧
           ∀ c ∈ current, r.id ≠ c.id) ∧
    reconcileDescriptions current desired now start =
      keepCurrent current (buildDesired [] [] desired).1 ++
        assignIds now start (newTexts desired) ∧
    ((keepCurrent current (buildDesired [] [] desired).1).map Description.id).Sublist
      (current.map Description.id) ∧
    (assignIds now start (newTexts desired)).map Description.text = newTexts desired := by
  cases hbd : buildDesired [] [] desired with
  | mk mm adds =>
    have hadds : adds = newTexts desired := by
      have := buildDesired_snd desired [] []
      rw [hbd] at this
      simpa using this
    have hR : reconcileDescriptions current desired now start =
        keepCurrent current mm ++ assignIds now start (newTexts desired) := by
      rw [reconcileDescriptions, hbd, hadds]
    have hget : ∀ i, mapGet mm i = lookupDesired desired i := by
      intro i
      have := buildDesired_fst_get desired [] [] i
      rw [hbd] at this
      cases hl : lookupDesired desired i <;> rw [hl] at this <;>
        simpa [mapGet] using this
    have hkeep : keepCurrent current mm = current.filterMap (fun c =>
        match mapGet mm c.id with
        | some t => some { c with text := t }
        | none => none) := keepCurrent_eq_filterMap current mm hC
    refine ⟨?_, ?_, ?_, ?_, ?_, ?_⟩
    · intro c hc d hd hid ht
      rw [hR]
      apply List.mem_append_left
      rw [hkeep]
      apply List.mem_filterMap.mpr
      refine ⟨c, hc, ?_⟩
      rw [hget, lookupDesired_of_nodup desired d c.id hD hd hid ht]
    · intro c hc hall r hr hrid
      rw [hR] at hr
      have hnone : mapGet mm c.id = none := by
        rw [hget]
        exact (lookupDesired_eq_none desired c.id).mpr hall
      rcases List.mem_append.mp hr with hkeepMem | hnewMem
      · rw [hkeep] at hkeepMem
        obtain ⟨c', hc', hf⟩ := List.mem_filterMap.mp hkeepMem
        cases hg : mapGet mm c'.id with
        | none => rw [hg] at hf; cases hf
        | some t =>
            rw [hg] at hf
            have hrc : r = { c' with text := t } := (Option.some.inj hf).symm
            have hcc : c' = c := by
              refine List.inj_on_of_nodup_map hC hc' hc ?_
              rw [← hrid, hrc]
            rw [hcc] at hg
            rw [hnone] at hg
            cases hg
      · have := (assignIds_mem now start (newTexts desired) r hnewMem).2.1
        have := hfresh c hc
        omega
    · intro d hd hid ht
      have htext : trimText d.text ∈ newTexts desired := by
        apply List.mem_filterMap.mpr
        refine ⟨d, hd, ?_⟩
        rw [hid]
        simp [ht]
      obtain ⟨r, hr, hrt, hrc, hrs⟩ :=
        mem_assignIds_of_mem now start (newTexts desired) (trimText d.text) htext
      refine ⟨r, ?_, hrt, hrc, hrs, ?_⟩
      · rw [hR]; exact List.mem_append_right _ hr
      · intro c hc
        have := hfresh c hc
        omega
    · rw [hR]
    · exact keepCurrent_ids_sublist current mm
    · exact assignIds_map_text now start (newTexts desired)

/-- Witness for C1 at the spec's own scenario: current
`[{id 1, "old"}, {id 2, "gone"}]`, desired `[{id 1, "kept"}, {"new"}]`. -/
theorem reconcile_correct_witness :
    (∀ c ∈ [Description.mk 1 "old" 0, Description.mk 2 "gone" 0],
       ∀ d ∈ [DescEntry.mk (some 1) "kept", DescEntry.mk none "new"],
         d.id = some c.id → trimText d.text ≠ "" →
       { c with text := trimText d.text } ∈
         reconcileDescriptions [Description.mk 1 "old" 0, Description.mk 2 "gone" 0]
           [DescEntry.mk (some 1) "kept", DescEntry.mk none "new"] 5 10) ∧
    (∀ c ∈ [Description.mk 1 "old" 0, Description.mk 2 "gone" 0],
       (∀ d ∈ [DescEntry.mk (some 1) "kept", DescEntry.mk none "new"],
          d.id = some c.id → trimText d.text = "") →
       ∀ r ∈ reconcileDescriptions [Description.mk 1 "old" 0, Description.mk 2 "gone" 0]
           [DescEntry.mk (some 1) "kept", DescEntry.mk none "new"] 5 10, r.id ≠ c.id) ∧
    (∀ d ∈ [DescEntry.mk (some 1) "kept", DescEntry.mk none "new"],
       d.id = none → trimText d.text ≠ "" →
       ∃ r ∈ reconcileDescriptions [Description.mk 1 "old" 0, Description.mk 2 "gone" 0]
           [DescEntry.mk (some 1) "kept", DescEntry.mk none "new"] 5 10,
         r.text = trimText d.text ∧ r.createdAt = 5 ∧ 10 ≤ r.id ∧
           ∀ c ∈ [Description.mk 1 "old" 0, Description.mk 2 "gone" 0], r.id ≠ c.id) ∧
    reconcileDescriptions [Description.mk 1 "old" 0, Description.mk 2 "gone" 0]
        [DescEntry.mk (some 1) "kept", DescEntry.mk none "new"] 5 10 =
      keepCurrent [Description.mk 1 "old" 0, Description.mk 2 "gone" 0]
          (buildDesired [] [] [DescEntry.mk (some 1) "kept", DescEntry.mk none "new"]).1 ++
        assignIds 5 10 (newTexts [DescEntry.mk (some 1) "kept", DescEntry.mk none "new"]) ∧
    ((keepCurrent [Description.mk 1 "old" 0, Description.mk 2 "gone" 0]
        (buildDesired [] [] [DescEntry.mk (some 1) "kept", DescEntry.mk none "new"]).1).map
          Description.id).Sublist
      ([Description.mk 1 "old" 0, Description.mk 2 "gone" 0].map Description.id) ∧
    (assignIds 5 10 (newTexts [DescEntry.mk (some 1) "kept", DescEntry.mk none "new"])).map
      Description.text = newTexts [DescEntry.mk (some 1) "kept", DescEntry.mk none "new"] :=
  reconcile_correct
    [Description.mk 1 "old" 0, Description.mk 2 "gone" 0]
    [DescEntry.mk (some 1) "kept", DescEntry.mk none "new"] 5 10
    (by decide) (by decide) (by decide)

/-! ### Claim C7: reconciliation idempotence -/

theorem keepCurrent_get_self (cs : List Description) (m : List (Nat × String))
    (h : (cs.map Description.id).Nodup) :
    ∀ k ∈ keepCurrent cs m, mapGet m k.id = some k.text := by
  intro k hk
  rw [keepCurrent_eq_filterMap cs m h] at hk
  obtain ⟨c, hc, hf⟩ := List.mem_filterMap.mp hk
  cases hg : mapGet m c.id with
  | none => rw [hg] at hf; cases hf
  | some t =>
      rw [hg] at hf
      have hkc : k = { c with text := t } := (Option.some.inj hf).symm
      rw [hkc]
      simpa using hg

/-- C7, amended.  Reconciling twice with the same desired list from the
resulting state preserves the retained portion exactly and re-creates the
id-less entries with fresh ids and the second call's timestamp: the result is
again `retained ++ new`, the text sequence is unchanged, and the second call is
a strict no-op precisely when the desired list has no id-less entry surviving
the empty-trim drop.  (The claim's unconditional no-op fails because the
id-less entries are re-created with fresh subdocument ids, see the
counterexample.)  Hypotheses: unique current ids and desired identified ids
referring below the fresh-id supply. -/
theorem reconcile_idem (current : List Description) (desired : List DescEntry)
    (now start now' start' : Nat)
    (hC : (current.map Description.id).Nodup)
    (hlt : ∀ c ∈ current, c.id < start)
    (hDlt : ∀ d ∈ desired, ∀ i, d.id = some i → i < start) :
    reconcileDescriptions (reconcileDescriptions current desired now start)
        desired now' start'
      = keepCurrent current (buildDesired [] [] desired).1 ++
          assignIds now' start' (newTexts desired) ∧
    (reconcileDescriptions (reconcileDescriptions current desired now start)
        desired now' start').map Description.text
      = (reconcileDescriptions current desired now start).map Description.text ∧
    (newTexts desired = [] →
      reconcileDescriptions (reconcileDescriptions current desired now start)
          desired now' start'
        = reconcileDescriptions current desired now start) := by
  cases hbd : buildDesired [] [] desired with
  | mk mm adds =>
    have hadds : adds = newTexts desired := by
      have := buildDesired_snd desired [] []
      rw [hbd] at this
      simpa using this
    have hget : ∀ i, mapGet mm i = lookupDesired desired i := by
      intro i
      have := buildDesired_fst_get desired [] [] i
      rw [hbd] at this
      cases hl : lookupDesired desired i <;> rw [hl] at this <;>
        simpa [mapGet] using this
    have hR1 : reconcileDescriptions current desired now start =
        keepCurrent current mm ++ assignIds now start (newTexts desired) := by
      rw [reconcileDescriptions, hbd, hadds]
    have hR2 : reconcileDescriptions (reconcileDescriptions current desired now start)
        desired now' start' =
        keepCurrent (reconcileDescriptions current desired now start) mm ++
          assignIds now' start' (newTexts desired) := by
      rw [reconcileDescriptions, hbd, hadds]
    have hKlt : ∀ k ∈ keepCurrent current mm, k.id < start := by
      intro k hk
      obtain ⟨c, hc, hcid⟩ := List.mem_map.mp (keepCurrent_mem_id current mm k hk)
      rw [← hcid]
      exact hlt c hc
    have hR1nodup : ((reconcileDescriptions current desired now start).map
        Description.id).Nodup := by
      rw [hR1, List.map_append]
      refine List.Nodup.append ?_ (assignIds_nodup_ids now start (newTexts desired)) ?_
      · exact ((keepCurrent_ids_sublist current mm).nodup hC)
      · intro x hx1 hx2
        obtain ⟨k, hk, hkid⟩ := List.mem_map.mp hx1
        obtain ⟨r, hr, hrid⟩ := List.mem_map.mp hx2
        have h1 := hKlt k hk
        have h2 := (assignIds_mem now start (newTexts desired) r hr).2.1
        omega
    have hKself : keepCurrent (reconcileDescriptions current desired now start) mm =
        keepCurrent current mm := by
      rw [keepCurrent_eq_filterMap _ mm hR1nodup, hR1, List.filterMap_append]
      have hA : (assignIds now start (newTexts desired)).filterMap (fun c =>
          match mapGet mm c.id with
          | some t => some { c with text := t }
          | none => none) = [] := by
        rw [List.filterMap_eq_nil_iff]
        intro r hr
        cases hg : mapGet mm r.id with
        | none => rfl
        | some t =>
            rw [hget] at hg
            obtain ⟨d, hd, hdid, _, _⟩ := lookupDesired_some_mem desired r.id t hg
            have h1 := hDlt d hd r.id hdid
            have h2 := (assignIds_mem now start (newTexts desired) r hr).2.1
            omega
      have hK : (keepCurrent current mm).filterMap (fun c =>
          match mapGet mm c.id with
          | some t => some { c with text := t }
          | none => none) = keepCurrent current mm := by
        apply filterMap_eq_self_of
        intro k hk
        rw [keepCurrent_get_self current mm hC k hk]
      rw [hA, hK, List.append_nil]
    refine ⟨?_, ?_, ?_⟩
    · rw [hR2, hKself]
    · rw [hR2, hKself, hR1, List.map_append, List.map_append,
        assignIds_map_text, assignIds_map_text]
    · intro hempty
      rw [hR2, hKself, hR1, hempty]
      simp [assignIds]

/-- Counterexample to C7 as stated: with desired list `[{text "new"}]` (one
id-less entry) on an empty current list, the second reconciliation re-creates
the entry with the fresh id and timestamp of the second call, so the persisted
list after the second call differs from the list after the first call. -/
theorem reconcile_idem_counterexample :
    reconcileDescriptions (reconcileDescriptions [] [DescEntry.mk none "new"] 0 0)
        [DescEntry.mk none "new"] 1 1
      ≠ reconcileDescriptions [] [DescEntry.mk none "new"] 0 0 := by decide

/-- Witness for the amended C7 at a concrete input. -/
theorem reconcile_idem_witness :
    reconcileDescriptions (reconcileDescriptions [Description.mk 1 "old" 0]
        [DescEntry.mk (some 1) "kept", DescEntry.mk none "new"] 5 10)
        [DescEntry.mk (some 1) "kept", DescEntry.mk none "new"] 6 11
      = keepCurrent [Description.mk 1 "old" 0]
          (buildDesired [] [] [DescEntry.mk (some 1) "kept", DescEntry.mk none "new"]).1 ++
          assignIds 6 11 (newTexts [DescEntry.mk (some 1) "kept", DescEntry.mk none "new"]) ∧
    (reconcileDescriptions (reconcileDescriptions [Description.mk 1 "old" 0]
        [DescEntry.mk (some 1) "kept", DescEntry.mk none "new"] 5 10)
        [DescEntry.mk (some 1) "kept", DescEntry.mk none "new"] 6 11).map Description.text
      = (reconcileDescriptions [Description.mk 1 "old" 0]
          [DescEntry.mk (some 1) "kept", DescEntry.mk none "new"] 5 10).map Description.text ∧
    (newTexts [DescEntry.mk (some 1) "kept", DescEntry.mk none "new"] = [] →
      reconcileDescriptions (reconcileDescriptions [Description.mk 1 "old" 0]
          [DescEntry.mk (some 1) "kept", DescEntry.mk none "new"] 5 10)
          [DescEntry.mk (some 1) "kept", DescEntry.mk none "new"] 6 11
        = reconcileDescriptions [Description.mk 1 "old" 0]
            [DescEntry.mk (some 1) "kept", DescEntry.mk none "new"] 5 10) :=
  reconcile_idem [Description.mk 1 "old" 0]
    [DescEntry.mk (some 1) "kept", DescEntry.mk none "new"] 5 10 6 11
    (by decide) (by decide) (by decide)

/-! ### Claim C3: identity tolerance -/

/-- C3. Identity tolerance: an asset stored with locator `/a/b.png` is found by
the identity resolver when queried with `a/b.png`, with `http://host/a/b.png`,
and with a case-varied form of the same path; and the resolver is a single
storage query whose predicate is the disjunction over the original string, the
normalized form, the normalized form with and without a leading separator, and
the case-insensitive escaped pattern (`urlMatches`). -/
theorem findByUrl_tolerant (a : MediaAsset) (h : a.url = "/a/b.png") :
    (∀ store, a ∈ store →
       (findByUrl false store "a/b.png").isSome ∧
       (findByUrl false store "http://host/a/b.png").isSome ∧
       (findByUrl false store "/A/B.PNG").isSome) ∧
    findByUrl false [a] "a/b.png" = some a ∧
    findByUrl false [a] "http://host/a/b.png" = some a ∧
    findByUrl false [a] "/A/B.PNG" = some a ∧
    (∀ store url, url ≠ "" →
       findByUrl false store url = store.find? (urlMatches url)) := by
  have hgen : ∀ (store : List MediaAsset) (url : String), url ≠ "" →
      findByUrl false store url = store.find? (urlMatches url) := by
    intro store url hne
    rw [findByUrl, if_neg hne]
    rfl
  have h1 : urlMatches "a/b.png" a = true := by
    simp only [urlMatches, h]
    decide
  have h2 : urlMatches "http://host/a/b.png" a = true := by
    simp only [urlMatches, h]
    decide
  have h3 : urlMatches "/A/B.PNG" a = true := by
    simp only [urlMatches, h]
    decide
  refine ⟨?_, ?_, ?_, ?_, hgen⟩
  · intro store ha
    refine ⟨?_, ?_, ?_⟩
    · rw [hgen store _ (by decide)]
      exact List.find?_isSome.mpr ⟨a, ha, h1⟩
    · rw [hgen store _ (by decide)]
      exact List.find?_isSome.mpr ⟨a, ha, h2⟩
    · rw [hgen store _ (by decide)]
      exact List.find?_isSome.mpr ⟨a, ha, h3⟩
  · rw [hgen [a] _ (by decide)]
    exact List.find?_cons_of_pos _ h1
  · rw [hgen [a] _ (by decide)]
    exact List.find?_cons_of_pos _ h2
  · rw [hgen [a] _ (by decide)]
    exact List.find?_cons_of_pos _ h3

/-- Witness for C3 at a concrete stored asset. -/
theorem findByUrl_tolerant_witness :
    findByUrl false [MediaAsset.mk 7 "image" "/a/b.png" "b.png" 3 "image/png" [] true 0]
        "a/b.png" = some (MediaAsset.mk 7 "image" "/a/b.png" "b.png" 3 "image/png" [] true 0) ∧
    findByUrl false [MediaAsset.mk 7 "image" "/a/b.png" "b.png" 3 "image/png" [] true 0]
        "http://host/a/b.png"
      = some (MediaAsset.mk 7 "image" "/a/b.png" "b.png" 3 "image/png" [] true 0) ∧
    findByUrl false [MediaAsset.mk 7 "image" "/a/b.png" "b.png" 3 "image/png" [] true 0]
        "/A/B.PNG" = some (MediaAsset.mk 7 "image" "/a/b.png" "b.png" 3 "image/png" [] true 0) :=
  ⟨(findByUrl_tolerant (MediaAsset.mk 7 "image" "/a/b.png" "b.png" 3 "image/png" [] true 0)
      rfl).2.1,
   (findByUrl_tolerant (MediaAsset.mk 7 "image" "/a/b.png" "b.png" 3 "image/png" [] true 0)
      rfl).2.2.1,
   (findByUrl_tolerant (MediaAsset.mk 7 "image" "/a/b.png" "b.png" 3 "image/png" [] true 0)
      rfl).2.2.2.1⟩

/-! ### Claim C10: identity resolution is total and never raises -/

/-- C10. Identity resolution is total: `findByUrl` always returns an optional
record (never throws); it returns `none` for an empty locator, `none` when the
underlying storage query fails, a member of the store satisfying the query
predicate otherwise, and a failed query is indistinguishable from an absent
locator (both give `none`). -/
theorem findByUrl_total (qf : Bool) (store : List MediaAsset) (url : String) :
    (url = "" → findByUrl qf store url = none) ∧
    (qf = true → findByUrl qf store url = none) ∧
    (url ≠ "" → qf = false →
       findByUrl qf store url = store.find? (urlMatches url)) ∧
    (∀ m, findByUrl qf store url = some m → m ∈ store ∧ urlMatches url m = true) ∧
    findByUrl true store url = findByUrl qf store "" := by
  refine ⟨?_, ?_, ?_, ?_, ?_⟩
  · intro h
    rw [findByUrl, if_pos h]
  · intro h
    rw [findByUrl, h]
    by_cases hu : url = ""
    · rw [if_pos hu]
    · rw [if_neg hu]
      rfl
  · intro hu hq
    rw [findByUrl, if_neg hu, hq]
    rfl
  · intro m hm
    rw [findByUrl] at hm
    by_cases hu : url = ""
    · rw [if_pos hu] at hm; cases hm
    · rw [if_neg hu] at hm
      cases qf with
      | true => cases hm
      | false =>
          exact ⟨List.mem_of_find?_eq_some hm, List.find?_some hm⟩
  · rw [findByUrl, findByUrl]
    by_cases hu : url = "" <;> simp [hu]

/-- Witness for C10: a failing query and an empty locator both resolve to `none`. -/
theorem findByUrl_total_witness :
    findByUrl true [] "x" = none ∧ findByUrl false [] "" = none :=
  ⟨(findByUrl_total true [] "x").2.1 rfl, (findByUrl_total false [] "").1 rfl⟩

/-! ### Claim C2: create idempotence -/

theorem findByUrl_eq_find? (store : List MediaAsset) (url : String) (hne : url ≠ "") :
    findByUrl false store url = store.find? (urlMatches url) := by
  rw [findByUrl, if_neg hne]
  rfl

theorem urlMatches_of_url_eq (q : String) (a : MediaAsset) (h : a.url = q) :
    urlMatches q a = true := by
  simp [urlMatches, h]

theorem url_ne_of_find?_none (store : List MediaAsset) (q : String)
    (hfind : store.find? (urlMatches q) = none) :
    ∀ x ∈ store, x.url ≠ q := by
  intro x hx he
  exact absurd (urlMatches_of_url_eq q x he) (by
    have := List.find?_eq_none.mp hfind x hx
    simpa using this)

theorem assignIds_eq_nil_iff (now s : Nat) (ts : List String) :
    assignIds now s ts = [] ↔ ts = [] := by
  cases ts <;> simp [assignIds]

/-- The merge branch on an asset whose scalar fields already coincide with the
payload and whose library flag is already set: the only effect is appending the
deduplicated trimmed description texts, and the write happens only if that
append is non-empty. -/
theorem mergeAsset_same (m : MediaAsset) (d : CreateData) (now2 s2 : Nat)
    (hf : m.filename = d.filename) (hs : m.size = d.size)
    (hm : m.mimetype = d.mimetype) (hl : m.isAddedToLibrary = true) :
    mergeAsset m d now2 s2 =
      ({ m with descriptions := m.descriptions ++
          assignIds now2 s2 (candidateTexts m.descriptions d.descriptions) },
       decide (candidateTexts m.descriptions d.descriptions ≠ [])) := by
  have h1 : decide (m.filename ≠ d.filename) = false := by simp [hf]
  have h2 : decide (m.size ≠ d.size) = false := by simp [hs]
  have h3 : decide (m.mimetype ≠ d.mimetype) = false := by simp [hm]
  have h4 : decide (m.isAddedToLibrary = false) = false := by simp [hl]
  by_cases hc : candidateTexts m.descriptions d.descriptions = []
  · simp [mergeAsset, h1, h2, h3, h4, hc, assignIds]
  · have hnil : assignIds now2 s2 (candidateTexts m.descriptions d.descriptions) ≠ [] :=
      fun h => hc ((assignIds_eq_nil_iff now2 s2 _).mp h)
    simp [mergeAsset, h1, h2, h3, h4, hc, hnil]

/-- Characterization of the merge branch, field by field: the id, url and
creation timestamp are never touched; filename, size and mimetype are
overwritten exactly when the new value is provided (truthy) and differs from
the stored value; the deduplicated trimmed description texts are appended; the
library flag ends up true. -/
theorem mergeAsset_id (m : MediaAsset) (d : CreateData) (now s : Nat) :
    (mergeAsset m d now s).1.id = m.id := by
  simp [mergeAsset, apply_ite MediaAsset.id]

theorem mergeAsset_url (m : MediaAsset) (d : CreateData) (now s : Nat) :
    (mergeAsset m d now s).1.url = m.url := by
  simp [mergeAsset, apply_ite MediaAsset.url]

theorem mergeAsset_filename (m : MediaAsset) (d : CreateData) (now s : Nat) :
    (mergeAsset m d now s).1.filename =
      if d.filename ≠ "" ∧ m.filename ≠ d.filename then d.filename else m.filename := by
  simp [mergeAsset, apply_ite MediaAsset.filename, Bool.and_eq_true, decide_eq_true_eq]

theorem mergeAsset_size (m : MediaAsset) (d : CreateData) (now s : Nat) :
    (mergeAsset m d now s).1.size =
      if d.size ≠ 0 ∧ m.size ≠ d.size then d.size else m.size := by
  simp [mergeAsset, apply_ite MediaAsset.size, Bool.and_eq_true, decide_eq_true_eq]

theorem mergeAsset_mimetype (m : MediaAsset) (d : CreateData) (now s : Nat) :
    (mergeAsset m d now s).1.mimetype =
      if d.mimetype ≠ "" ∧ m.mimetype ≠ d.mimetype then d.mimetype else m.mimetype := by
  simp [mergeAsset, apply_ite MediaAsset.mimetype, Bool.and_eq_true, decide_eq_true_eq]

theorem mergeAsset_descriptions (m : MediaAsset) (d : CreateData) (now s : Nat) :
    (mergeAsset m d now s).1.descriptions =
      m.descriptions ++ assignIds now s (candidateTexts m.descriptions d.descriptions) := by
  by_cases hc : candidateTexts m.descriptions d.descriptions = []
  · simp [mergeAsset, apply_ite MediaAsset.descriptions, hc, assignIds]
  · have hnil : assignIds now s (candidateTexts m.descriptions d.descriptions) ≠ [] :=
      fun h => hc ((assignIds_eq_nil_iff now s _).mp h)
    simp [mergeAsset, apply_ite MediaAsset.descriptions, hc, hnil]

theorem mergeAsset_isAddedToLibrary (m : MediaAsset) (d : CreateData) (now start : Nat) :
    (mergeAsset m d now start).1.isAddedToLibrary = true := by
  cases hflag : m.isAddedToLibrary with
  | false => simp [mergeAsset, hflag, apply_ite MediaAsset.isAddedToLibrary]
  | true => simp [mergeAsset, hflag, apply_ite MediaAsset.isAddedToLibrary]

theorem mergeAsset_noUpdate (m : MediaAsset) (d : CreateData) (now s : Nat)
    (h : (mergeAsset m d now s).2 = false) :
    (mergeAsset m d now s).1 = m := by
  simp only [mergeAsset, Bool.or_eq_false_iff] at h
  obtain ⟨⟨⟨⟨h1, h2⟩, h3⟩, h4⟩, h5⟩ := h
  have hn1 : ¬(d.filename ≠ "" ∧ m.filename ≠ d.filename) :=
    fun hc => by simp [hc.1, hc.2] at h1
  have hn2 : ¬(d.size ≠ 0 ∧ m.size ≠ d.size) :=
    fun hc => by simp [hc.1, hc.2] at h2
  have hn3 : ¬(d.mimetype ≠ "" ∧ m.mimetype ≠ d.mimetype) :=
    fun hc => by simp [hc.1, hc.2] at h3
  have h4n : assignIds now s (candidateTexts m.descriptions d.descriptions) = [] := by
    by_contra hne
    simp [hne] at h4
  have h5t : m.isAddedToLibrary = true := by
    cases hb : m.isAddedToLibrary with
    | false => simp [hb] at h5
    | true => rfl
  simp [mergeAsset, hn1, hn2, hn3, h4n, h5t]

/-- The `urlMatches` predicate depends only on the document's url. -/
theorem urlMatches_congr (q : String) (a b : MediaAsset) (h : a.url = b.url) :
    urlMatches q a = urlMatches q b := by
  simp [urlMatches, h]

/-- Saving a document preserves the first match of any predicate it satisfies:
under unique stored ids, `find?` on the saved store returns the updated
document in place of the one it replaced. -/
theorem find?_saveAsset (store : List MediaAsset) (m m' : MediaAsset)
    (p : MediaAsset → Bool)
    (hnd : (store.map MediaAsset.id).Nodup)
    (hfind : store.find? p = some m)
    (hid : m'.id = m.id) (hp : p m' = true) :
    (saveAsset store m').find? p = some m' := by
  induction store with
  | nil => cases hfind
  | cons x xs ih =>
      have hnd' : (xs.map MediaAsset.id).Nodup :=
        (List.nodup_cons.mp (by simpa using hnd)).2
      cases hpx : p x with
      | true =>
          rw [List.find?_cons_of_pos _ hpx] at hfind
          have hmx : x = m := Option.some.inj hfind
          rw [saveAsset, List.map_cons]
          rw [if_pos (by rw [hmx, hid])]
          exact List.find?_cons_of_pos _ hp
      | false =>
          rw [List.find?_cons_of_neg _ (by rw [hpx]; simp)] at hfind
          have hmxs : m ∈ xs := List.mem_of_find?_eq_some hfind
          have hxid : ¬ x.id = m'.id := by
            rw [hid]
            intro he
            exact (List.nodup_cons.mp (by simpa using hnd)).1
              (he ▸ List.mem_map_of_mem MediaAsset.id hmxs)
          rw [saveAsset, List.map_cons, if_neg hxid]
          rw [List.find?_cons_of_neg _ (by rw [hpx]; simp)]
          exact ih hnd' hfind

theorem mem_saveAsset_self (store : List MediaAsset) (m m' : MediaAsset)
    (hm : m ∈ store) (hid : m'.id = m.id) : m' ∈ saveAsset store m' := by
  rw [saveAsset]
  exact List.mem_map.mpr ⟨m, hm, by rw [if_pos hid.symm]⟩

/-- Saving a document changes no stored projection whose value agrees with the
replaced document, under unique stored ids: the projected sequence is
unchanged. -/
theorem saveAsset_map_field {α : Type} (f : MediaAsset → α) (store : List MediaAsset)
    (m m' : MediaAsset) (hnd : (store.map MediaAsset.id).Nodup) (hm : m ∈ store)
    (hid : m'.id = m.id) (hagree : f m' = f m) :
    (saveAsset store m').map f = store.map f := by
  rw [saveAsset, List.map_map]
  apply List.map_congr_left
  intro x hx
  by_cases hxid : x.id = m'.id
  · have hxm : x = m := List.inj_on_of_nodup_map hnd hx hm (by rw [hxid, hid])
    rw [Function.comp_apply, if_pos hxid, hxm, hagree]
  · rw [Function.comp_apply, if_neg hxid]

theorem saveAsset_map_url (store : List MediaAsset) (m m' : MediaAsset)
    (hnd : (store.map MediaAsset.id).Nodup) (hm : m ∈ store)
    (hid : m'.id = m.id) (hurl : m'.url = m.url) :
    (saveAsset store m').map MediaAsset.url = store.map MediaAsset.url :=
  saveAsset_map_field MediaAsset.url store m m' hnd hm hid hurl

theorem filter_url_length_eq (S T : List MediaAsset) (q : String)
    (h : S.map MediaAsset.url = T.map MediaAsset.url) :
    (S.filter (fun x => decide (x.url = q))).length =
      (T.filter (fun x => decide (x.url = q))).length := by
  rw [← List.countP_eq_length_filter, ← List.countP_eq_length_filter]
  have hS : S.countP (fun x => decide (x.url = q)) =
      (S.map MediaAsset.url).countP (fun u => decide (u = q)) := by
    rw [List.countP_map]
    rfl
  have hT : T.countP (fun x => decide (x.url = q)) =
      (T.map MediaAsset.url).countP (fun u => decide (u = q)) := by
    rw [List.countP_map]
    rfl
  rw [hS, hT, h]

/-- The second create call against a store in which the locator already
resolves: it merges in place, returns the resolved identity, stores nothing
new, keeps the locator resolving to the merged record, overwrites exactly the
provided differing scalar fields, appends exactly the missing trimmed texts,
and preserves the count of documents carrying any given url. -/
theorem create_second_call (S1 : List MediaAsset) (d2 : CreateData) (q : String)
    (now2 s2 : Nat)
    (hq : normalizeUrlForStorage d2.url = q) (hqne : q ≠ "")
    (a1 : MediaAsset)
    (hfound : findByUrl false S1 q = some a1)
    (hnd1 : (S1.map MediaAsset.id).Nodup)
    (ha1 : a1 ∈ S1) :
    ∃ S2 a2,
      create false [] S1 d2 now2 s2 = .ok S2 a2 ∧
      a2.id = a1.id ∧
      a2.url = a1.url ∧
      S2.length = S1.length ∧
      findByUrl false S2 q = some a2 ∧
      a2.filename = (if d2.filename ≠ "" ∧ a1.filename ≠ d2.filename
        then d2.filename else a1.filename) ∧
      a2.size = (if d2.size ≠ 0 ∧ a1.size ≠ d2.size then d2.size else a1.size) ∧
      a2.mimetype = (if d2.mimetype ≠ "" ∧ a1.mimetype ≠ d2.mimetype
        then d2.mimetype else a1.mimetype) ∧
      a2.descriptions = a1.descriptions ++
        assignIds now2 s2 (candidateTexts a1.descriptions d2.descriptions) ∧
      a2.isAddedToLibrary = true ∧
      (S2.filter (fun x => decide (x.url = q))).length =
        (S1.filter (fun x => decide (x.url = q))).length := by
  have h2 : create false [] S1 d2 now2 s2 =
      .ok (if (mergeAsset a1 { d2 with url := q } now2 s2).2 = true
           then saveAsset S1 (mergeAsset a1 { d2 with url := q } now2 s2).1 else S1)
        (mergeAsset a1 { d2 with url := q } now2 s2).1 := by
    simp only [create]
    rw [hq, hfound]
  have hid2 : (mergeAsset a1 { d2 with url := q } now2 s2).1.id = a1.id :=
    mergeAsset_id a1 _ now2 s2
  have hurl2 : (mergeAsset a1 { d2 with url := q } now2 s2).1.url = a1.url :=
    mergeAsset_url a1 _ now2 s2
  have hfind1 : S1.find? (urlMatches q) = some a1 := by
    rw [← findByUrl_eq_find? S1 q hqne]
    exact hfound
  have hp1 : urlMatches q a1 = true := List.find?_some hfind1
  have hp2 : urlMatches q (mergeAsset a1 { d2 with url := q } now2 s2).1 = true := by
    rw [urlMatches_congr q _ a1 hurl2]
    exact hp1
  by_cases hu : (mergeAsset a1 { d2 with url := q } now2 s2).2 = true
  · refine ⟨saveAsset S1 (mergeAsset a1 { d2 with url := q } now2 s2).1,
      (mergeAsset a1 { d2 with url := q } now2 s2).1,
      ?_, hid2, hurl2, ?_, ?_, mergeAsset_filename a1 _ now2 s2,
      mergeAsset_size a1 _ now2 s2, mergeAsset_mimetype a1 _ now2 s2,
      mergeAsset_descriptions a1 _ now2 s2,
      mergeAsset_isAddedToLibrary a1 _ now2 s2, ?_⟩
    · rw [h2, if_pos hu]
    · rw [saveAsset]
      exact List.length_map S1 _
    · rw [findByUrl_eq_find? _ q hqne]
      exact find?_saveAsset S1 a1 _ (urlMatches q) hnd1 hfind1 hid2 hp2
    · exact filter_url_length_eq _ S1 q
        (saveAsset_map_url S1 a1 _ hnd1 ha1 hid2 hurl2)
  · have hfalse : (mergeAsset a1 { d2 with url := q } now2 s2).2 = false := by
      cases hb : (mergeAsset a1 { d2 with url := q } now2 s2).2 with
      | false => rfl
      | true => exact absurd hb hu
    refine ⟨S1, (mergeAsset a1 { d2 with url := q } now2 s2).1,
      ?_, hid2, hurl2, rfl, ?_, mergeAsset_filename a1 _ now2 s2,
      mergeAsset_size a1 _ now2 s2, mergeAsset_mimetype a1 _ now2 s2,
      mergeAsset_descriptions a1 _ now2 s2,
      mergeAsset_isAddedToLibrary a1 _ now2 s2, rfl⟩
    · rw [h2, if_neg hu]
    · rw [mergeAsset_noUpdate a1 _ now2 s2 hfalse]
      exact hfound

/-- C2, amended.  Create idempotence for any locator whose storage-normalized
form is non-empty (the sole restriction the empty-locator counterexample
forces): for two create calls whose payloads carry the same canonical locator,
both calls succeed; the second call returns the same asset identity and stores
no additional document, and afterwards the resolver maps the locator to that
single record; the second call merges exactly the provided scalar fields
(filename, size, mimetype) whose new value differs from the stored value,
appends exactly the description texts whose trimmed text is not already
present verbatim among the asset's current descriptions, and forces the
library flag.  When the locator was previously unknown, the first call inserts
one document and exactly one stored document carries the canonical locator
afterwards; when it resolved to an existing record, the first call merges in
place, nothing is added, and the per-url document counts are unchanged.
Hypotheses: unique stored ids (stated invariant) and a fresh insert id. -/
theorem create_idempotent (store : List MediaAsset) (d1 d2 : CreateData)
    (now1 s1 now2 s2 : Nat)
    (hne : normalizeUrlForStorage d1.url ≠ "")
    (hsame : normalizeUrlForStorage d2.url = normalizeUrlForStorage d1.url)
    (hno : (store.map MediaAsset.id).Nodup)
    (hfresh : ∀ x ∈ store, x.id ≠ s1) :
    ∃ S1 a1 S2 a2,
      create false [] store d1 now1 s1 = .ok S1 a1 ∧
      create false [] S1 d2 now2 s2 = .ok S2 a2 ∧
      a2.id = a1.id ∧
      a2.url = a1.url ∧
      S2.length = S1.length ∧
      findByUrl false S2 (normalizeUrlForStorage d1.url) = some a2 ∧
      a2.filename = (if d2.filename ≠ "" ∧ a1.filename ≠ d2.filename
        then d2.filename else a1.filename) ∧
      a2.size = (if d2.size ≠ 0 ∧ a1.size ≠ d2.size then d2.size else a1.size) ∧
      a2.mimetype = (if d2.mimetype ≠ "" ∧ a1.mimetype ≠ d2.mimetype
        then d2.mimetype else a1.mimetype) ∧
      a2.descriptions = a1.descriptions ++
        assignIds now2 s2 (candidateTexts a1.descriptions d2.descriptions) ∧
      a2.isAddedToLibrary = true ∧
      (findByUrl false store (normalizeUrlForStorage d1.url) = none →
        S1 = store ++ [newAsset { d1 with url := normalizeUrlForStorage d1.url } now1 s1] ∧
        (S2.filter (fun x => decide (x.url = normalizeUrlForStorage d1.url))).length = 1) ∧
      (∀ m, findByUrl false store (normalizeUrlForStorage d1.url) = some m →
        a1.id = m.id ∧ S1.length = store.length ∧
        (S2.filter (fun x => decide (x.url = normalizeUrlForStorage d1.url))).length =
          (store.filter (fun x => decide (x.url = normalizeUrlForStorage d1.url))).length) := by
  have pack : ∃ S1 a1,
      create false [] store d1 now1 s1 = .ok S1 a1 ∧
      findByUrl false S1 (normalizeUrlForStorage d1.url) = some a1 ∧
      (S1.map MediaAsset.id).Nodup ∧ a1 ∈ S1 ∧
      (findByUrl false store (normalizeUrlForStorage d1.url) = none →
        S1 = store ++ [newAsset { d1 with url := normalizeUrlForStorage d1.url } now1 s1] ∧
        (S1.filter (fun x => decide (x.url = normalizeUrlForStorage d1.url))).length = 1) ∧
      (∀ m, findByUrl false store (normalizeUrlForStorage d1.url) = some m →
        a1.id = m.id ∧ S1.length = store.length ∧
        (S1.filter (fun x => decide (x.url = normalizeUrlForStorage d1.url))).length =
          (store.filter (fun x => decide (x.url = normalizeUrlForStorage d1.url))).length) := by
    cases hf : findByUrl false store (normalizeUrlForStorage d1.url) with
    | none =>
        have hfind' : store.find? (urlMatches (normalizeUrlForStorage d1.url)) = none := by
          rw [← findByUrl_eq_find? store _ hne]
          exact hf
        have hnotany : store.any
            (fun a => decide (a.url = normalizeUrlForStorage d1.url)) = false := by
          rw [List.any_eq_false]
          intro x hx
          simp only [decide_eq_true_eq]
          exact url_ne_of_find?_none store _ hfind' x hx
        have hc1 : create false [] store d1 now1 s1 =
            .ok (store ++ [newAsset { d1 with url := normalizeUrlForStorage d1.url } now1 s1])
              (newAsset { d1 with url := normalizeUrlForStorage d1.url } now1 s1) := by
          simp only [create]
          rw [hf]
          simp [hnotany]
        have hfound1 : findByUrl false
            (store ++ [newAsset { d1 with url := normalizeUrlForStorage d1.url } now1 s1])
            (normalizeUrlForStorage d1.url) =
            some (newAsset { d1 with url := normalizeUrlForStorage d1.url } now1 s1) := by
          rw [findByUrl_eq_find? _ _ hne, List.find?_append, hfind']
          rw [List.find?_cons_of_pos ([] : List MediaAsset)
            (urlMatches_of_url_eq (normalizeUrlForStorage d1.url)
              (newAsset { d1 with url := normalizeUrlForStorage d1.url } now1 s1) rfl)]
          rfl
        have hnd1 : ((store ++ [newAsset { d1 with url := normalizeUrlForStorage d1.url }
            now1 s1]).map MediaAsset.id).Nodup := by
          rw [List.map_append]
          refine List.Nodup.append hno (by simp) ?_
          intro x hx1 hx2
          simp only [List.map_cons, List.map_nil, List.mem_singleton] at hx2
          obtain ⟨y, hy, hyid⟩ := List.mem_map.mp hx1
          exact hfresh y hy (by rw [hyid, hx2]; rfl)
        have hfilterstore : store.filter
            (fun x => decide (x.url = normalizeUrlForStorage d1.url)) = [] := by
          rw [List.filter_eq_nil_iff]
          intro x hx
          simp only [decide_eq_true_eq]
          exact url_ne_of_find?_none store _ hfind' x hx
        have hcount1 : ((store ++ [newAsset { d1 with url := normalizeUrlForStorage d1.url }
            now1 s1]).filter
              (fun x => decide (x.url = normalizeUrlForStorage d1.url))).length = 1 := by
          rw [List.filter_append, hfilterstore]
          have hp : decide ((newAsset { d1 with url := normalizeUrlForStorage d1.url }
              now1 s1).url = normalizeUrlForStorage d1.url) = true := decide_eq_true rfl
          simp [List.filter_cons, hp]
        refine ⟨store ++ [newAsset { d1 with url := normalizeUrlForStorage d1.url } now1 s1],
          newAsset { d1 with url := normalizeUrlForStorage d1.url } now1 s1,
          hc1, hfound1, hnd1, List.mem_append_right _ (List.mem_singleton.mpr rfl),
          fun _ => ⟨rfl, hcount1⟩, fun m hm => ?_⟩
        exact Option.noConfusion hm
    | some m =>
        have hfind' : store.find? (urlMatches (normalizeUrlForStorage d1.url)) = some m := by
          rw [← findByUrl_eq_find? store _ hne]
          exact hf
        have hmmem : m ∈ store := List.mem_of_find?_eq_some hfind'
        have hid1 : (mergeAsset m { d1 with url := normalizeUrlForStorage d1.url }
            now1 s1).1.id = m.id := mergeAsset_id m _ now1 s1
        have hurl1 : (mergeAsset m { d1 with url := normalizeUrlForStorage d1.url }
            now1 s1).1.url = m.url := mergeAsset_url m _ now1 s1
        have hp2 : urlMatches (normalizeUrlForStorage d1.url)
            (mergeAsset m { d1 with url := normalizeUrlForStorage d1.url } now1 s1).1 = true := by
          rw [urlMatches_congr _ _ m hurl1]
          exact List.find?_some hfind'
        have hgen : create false [] store d1 now1 s1 =
            .ok (if (mergeAsset m { d1 with url := normalizeUrlForStorage d1.url }
                      now1 s1).2 = true
                 then saveAsset store
                   (mergeAsset m { d1 with url := normalizeUrlForStorage d1.url } now1 s1).1
                 else store)
              (mergeAsset m { d1 with url := normalizeUrlForStorage d1.url } now1 s1).1 := by
          simp only [create]
          rw [hf]
        by_cases hu : (mergeAsset m { d1 with url := normalizeUrlForStorage d1.url }
            now1 s1).2 = true
        · refine ⟨saveAsset store (mergeAsset m { d1 with url := normalizeUrlForStorage d1.url }
              now1 s1).1,
            (mergeAsset m { d1 with url := normalizeUrlForStorage d1.url } now1 s1).1,
            ?_, ?_, ?_, mem_saveAsset_self store m _ hmmem hid1,
            fun habs => ?_, fun m2 hm2 => ?_⟩
          · rw [hgen, if_pos hu]
          · rw [findByUrl_eq_find? _ _ hne]
            exact find?_saveAsset store m _ (urlMatches _) hno hfind' hid1 hp2
          · rw [saveAsset_map_field MediaAsset.id store m _ hno hmmem hid1 hid1]
            exact hno
          · exact Option.noConfusion habs
          · have hm2m : m2 = m := (Option.some.inj hm2).symm
            rw [hm2m]
            refine ⟨hid1, ?_, ?_⟩
            · rw [saveAsset]
              exact List.length_map store _
            · exact filter_url_length_eq _ store _
                (saveAsset_map_url store m _ hno hmmem hid1 hurl1)
        · have hfalse : (mergeAsset m { d1 with url := normalizeUrlForStorage d1.url }
              now1 s1).2 = false := by
            cases hb : (mergeAsset m { d1 with url := normalizeUrlForStorage d1.url }
                now1 s1).2 with
            | false => rfl
            | true => exact absurd hb hu
          have hnoup := mergeAsset_noUpdate m
            ({ d1 with url := normalizeUrlForStorage d1.url }) now1 s1 hfalse
          refine ⟨store,
            (mergeAsset m { d1 with url := normalizeUrlForStorage d1.url } now1 s1).1,
            ?_, ?_, hno, ?_, fun habs => ?_, fun m2 hm2 => ?_⟩
          · rw [hgen, if_neg hu]
          · rw [hnoup]
            exact hf
          · rw [hnoup]
            exact hmmem
          · exact Option.noConfusion habs
          · have hm2m : m2 = m := (Option.some.inj hm2).symm
            rw [hm2m]
            exact ⟨hid1, rfl, rfl⟩
  obtain ⟨S1, a1, h1, hfound1, hnd1, ha1mem, hfreshcase, hmergecase⟩ := pack
  obtain ⟨S2, a2, h2, hid2, hurl2, hlen2, hfound2, hfn, hsz, hmt, hdesc, hflag, hcount2⟩ :=
    create_second_call S1 d2 (normalizeUrlForStorage d1.url) now2 s2 hsame hne a1
      hfound1 hnd1 ha1mem
  refine ⟨S1, a1, S2, a2, h1, h2, hid2, hurl2, hlen2, hfound2, hfn, hsz, hmt, hdesc,
    hflag, ?_, ?_⟩
  · intro hnone
    obtain ⟨hS1eq, hcount1⟩ := hfreshcase hnone
    exact ⟨hS1eq, by rw [hcount2, hcount1]⟩
  · intro m hm
    obtain ⟨hida, hlen1, hcount1⟩ := hmergecase m hm
    exact ⟨hida, hlen1, by rw [hcount2, hcount1]⟩


/-- Counterexample to C2 as stated ("for any locator L"): for the empty
locator, the first call stores a document with url `""`, and the second call
misses it in resolution (`findByUrl` maps an empty locator to `null`), hits the
unique-locator conflict, fails to re-resolve, and rethrows — it does not return
the same asset identity. -/
theorem create_idempotent_counterexample :
    create false [] [] (CreateData.mk "image" "" "" 0 "" []) 0 0
      = CreateResult.ok [newAsset (CreateData.mk "image" "" "" 0 "" []) 0 0]
          (newAsset (CreateData.mk "image" "" "" 0 "" []) 0 0) ∧
    create false [] [newAsset (CreateData.mk "image" "" "" 0 "" []) 0 0]
        (CreateData.mk "image" "" "" 0 "" []) 1 10 = CreateResult.err :=
  ⟨by decide, by decide⟩


/-- Witness for the amended C2: the spec's own scenario — create with
`img/a.png` and filename `a.png`, then create with the equivalent locator
`/img/a.png` and filename `b.png`, on an empty store. -/
theorem create_idempotent_witness :
    ∃ S1 a1 S2 a2,
      create false [] [] (CreateData.mk "image" "img/a.png" "a.png" 3 "image/png" [" hi "])
          0 0 = .ok S1 a1 ∧
      create false [] S1 (CreateData.mk "image" "/img/a.png" "b.png" 4 "image/png" ["x"])
          1 10 = .ok S2 a2 ∧
      a2.id = a1.id ∧
      a2.url = a1.url ∧
      S2.length = S1.length ∧
      findByUrl false S2 (normalizeUrlForStorage "img/a.png") = some a2 ∧
      a2.filename = (if (CreateData.mk "image" "/img/a.png" "b.png" 4 "image/png" ["x"]).filename ≠ "" ∧ a1.filename ≠ (CreateData.mk "image" "/img/a.png" "b.png" 4 "image/png" ["x"]).filename then (CreateData.mk "image" "/img/a.png" "b.png" 4 "image/png" ["x"]).filename else a1.filename) ∧
      a2.size = (if (CreateData.mk "image" "/img/a.png" "b.png" 4 "image/png" ["x"]).size ≠ 0 ∧ a1.size ≠ (CreateData.mk "image" "/img/a.png" "b.png" 4 "image/png" ["x"]).size then (CreateData.mk "image" "/img/a.png" "b.png" 4 "image/png" ["x"]).size else a1.size) ∧
      a2.mimetype = (if (CreateData.mk "image" "/img/a.png" "b.png" 4 "image/png" ["x"]).mimetype ≠ "" ∧ a1.mimetype ≠ (CreateData.mk "image" "/img/a.png" "b.png" 4 "image/png" ["x"]).mimetype then (CreateData.mk "image" "/img/a.png" "b.png" 4 "image/png" ["x"]).mimetype else a1.mimetype) ∧
      a2.descriptions = a1.descriptions ++
        assignIds 1 10 (candidateTexts a1.descriptions
          (CreateData.mk "image" "/img/a.png" "b.png" 4 "image/png" ["x"]).descriptions) ∧
      a2.isAddedToLibrary = true ∧
      (findByUrl false [] (normalizeUrlForStorage "img/a.png") = none →
        S1 = [] ++ [newAsset { CreateData.mk "image" "img/a.png" "a.png" 3 "image/png" [" hi "] with url := normalizeUrlForStorage "img/a.png" } 0 0] ∧
        (S2.filter (fun x => decide (x.url = normalizeUrlForStorage "img/a.png"))).length = 1) ∧
      (∀ m, findByUrl false [] (normalizeUrlForStorage "img/a.png") = some m →
        a1.id = m.id ∧ S1.length = ([] : List MediaAsset).length ∧
        (S2.filter (fun x => decide (x.url = normalizeUrlForStorage "img/a.png"))).length =
          (([] : List MediaAsset).filter
            (fun x => decide (x.url = normalizeUrlForStorage "img/a.png"))).length) :=
  create_idempotent [] (CreateData.mk "image" "img/a.png" "a.png" 3 "image/png" [" hi "])
    (CreateData.mk "image" "/img/a.png" "b.png" 4 "image/png" ["x"]) 0 0 1 10
    (by decide) (by decide) (by decide) (by decide)


/-! ### Claim C4: IdentityConflict is never surfaced -/

/-- C4, amended.  For every create call that reaches the insert and hits the
storage layer's uniqueness-violation condition on a locator whose normalized
form is non-empty, the operation re-resolves identity and returns an existing
matching record without raising; any other persistence failure of the insert
propagates.  (The unrestricted claim fails for the empty locator, see the
counterexample: re-resolution of `""` returns `null` and the conflict is
rethrown.) -/
theorem conflict_resolved (raced store : List MediaAsset) (d : CreateData)
    (now start : Nat)
    (hne : normalizeUrlForStorage d.url ≠ "")
    (hfind : findByUrl false store (normalizeUrlForStorage d.url) = none)
    (hdup : (store ++ raced).any
      (fun a => decide (a.url = normalizeUrlForStorage d.url)) = true) :
    (∃ m, create false raced store d now start = .ok (store ++ raced) m ∧
       m ∈ store ++ raced ∧
       urlMatches (normalizeUrlForStorage d.url) m = true) ∧
    create true raced store d now start = .err := by
  constructor
  · obtain ⟨x, hx, hxurl⟩ := List.any_eq_true.mp hdup
    have hsomem : ((store ++ raced).find?
        (urlMatches (normalizeUrlForStorage d.url))).isSome :=
      List.find?_isSome.mpr
        ⟨x, hx, urlMatches_of_url_eq _ x (of_decide_eq_true hxurl)⟩
    obtain ⟨m, hm⟩ := Option.isSome_iff_exists.mp hsomem
    refine ⟨m, ?_, List.mem_of_find?_eq_some hm, List.find?_some hm⟩
    simp only [create]
    rw [hfind]
    rw [if_pos hdup]
    rw [findByUrl_eq_find? _ _ hne, hm]
    rfl
  · simp only [create]
    rw [hfind]
    simp

/-- Counterexample to C4 as stated: a create call for the empty locator whose
insert hits the unique-locator condition (the store already holds a document
with url `""`) surfaces the conflict as an error instead of returning the
existing record, because re-resolution of an empty locator yields `null`. -/
theorem conflict_resolved_counterexample :
    ([newAsset (CreateData.mk "image" "" "" 0 "" []) 0 0].any
        (fun a => decide (a.url = normalizeUrlForStorage "")) = true) ∧
    create false [] [newAsset (CreateData.mk "image" "" "" 0 "" []) 0 0]
        (CreateData.mk "image" "" "" 0 "" []) 1 10 = CreateResult.err :=
  ⟨by decide, by decide⟩

/-- Witness for the amended C4 at a concrete race: a document for `/a.png`
committed between the lookup and the insert. -/
theorem conflict_resolved_witness :
    (∃ m, create false [newAsset (CreateData.mk "image" "/a.png" "" 0 "" []) 0 0] []
          (CreateData.mk "image" "a.png" "" 0 "" []) 5 10
        = .ok ([] ++ [newAsset (CreateData.mk "image" "/a.png" "" 0 "" []) 0 0]) m ∧
       m ∈ [] ++ [newAsset (CreateData.mk "image" "/a.png" "" 0 "" []) 0 0] ∧
       urlMatches (normalizeUrlForStorage
         (CreateData.mk "image" "a.png" "" 0 "" []).url) m = true) ∧
    create true [newAsset (CreateData.mk "image" "/a.png" "" 0 "" []) 0 0] []
        (CreateData.mk "image" "a.png" "" 0 "" []) 5 10 = .err :=
  conflict_resolved [newAsset (CreateData.mk "image" "/a.png" "" 0 "" []) 0 0] []
    (CreateData.mk "image" "a.png" "" 0 "" []) 5 10
    (by decide) (by decide) (by decide)

/-! ### Claim C6: the deletion guard never blocks record deletion -/

/-- C6. Deletion guard never blocks record deletion: for every asset-delete
call, the returned document and the resulting store are the same for every
filesystem state, public root, and thrown-filesystem-error condition — the
record deletion reaches its terminal state identically regardless of the
file-removal branch outcome; when the record resolves, it is always deleted
from the store; and whenever the guard reports a failure indicator, the record
deletion still stands. -/
theorem remove_record_independent (store : List MediaAsset) (fsys : List String)
    (publicDir : String) (fsThrows : Bool) (mid : Nat) :
    (remove store fsys publicDir fsThrows mid).doc =
      store.find? (fun m => decide (m.id = mid)) ∧
    ((store.find? (fun m => decide (m.id = mid))).isSome →
       (remove store fsys publicDir fsThrows mid).store =
         store.filter (fun m => decide (m.id ≠ mid))) ∧
    (store.find? (fun m => decide (m.id = mid)) = none →
       (remove store fsys publicDir fsThrows mid).store = store) ∧
    (∀ fsys' publicDir' fsThrows',
       (remove store fsys' publicDir' fsThrows' mid).doc =
         (remove store fsys publicDir fsThrows mid).doc ∧
       (remove store fsys' publicDir' fsThrows' mid).store =
         (remove store fsys publicDir fsThrows mid).store) ∧
    (∀ r, (remove store fsys publicDir fsThrows mid).fileOutcome = some r →
       r.success = false →
       (remove store fsys publicDir fsThrows mid).store =
         store.filter (fun m => decide (m.id ≠ mid))) := by
  cases hf : store.find? (fun m => decide (m.id = mid)) with
  | none =>
      refine ⟨?_, ?_, ?_, ?_, ?_⟩ <;> simp [remove, hf]
  | some m =>
      refine ⟨?_, ?_, ?_, ?_, ?_⟩ <;> simp [remove, hf]

/-- Witness for C6 at a record whose locator attempts a path traversal: the
record is deleted regardless, and the outcome components match the general
characterization. -/
theorem remove_record_witness :
    (remove [MediaAsset.mk 3 "image" "/uploads/../secret" "" 0 "" [] true 0]
        ["/pub/secret"] "/pub" false 3).store
      = [MediaAsset.mk 3 "image" "/uploads/../secret" "" 0 "" [] true 0].filter
          (fun m => decide (m.id ≠ 3)) ∧
    (remove [MediaAsset.mk 3 "image" "/uploads/../secret" "" 0 "" [] true 0]
        ["/pub/secret"] "/pub" false 3).doc
      = [MediaAsset.mk 3 "image" "/uploads/../secret" "" 0 "" [] true 0].find?
          (fun m => decide (m.id = 3)) :=
  ⟨(remove_record_independent
      [MediaAsset.mk 3 "image" "/uploads/../secret" "" 0 "" [] true 0]
      ["/pub/secret"] "/pub" false 3).2.1 (by decide),
   (remove_record_independent
      [MediaAsset.mk 3 "image" "/uploads/../secret" "" 0 "" [] true 0]
      ["/pub/secret"] "/pub" false 3).1⟩

/-! ### Claim C8: `isAddedToLibrary` monotonicity -/

theorem saveAsset_allTrue (store : List MediaAsset) (m' : MediaAsset)
    (hall : ∀ x ∈ store, x.isAddedToLibrary = true) (hm : m'.isAddedToLibrary = true) :
    ∀ y ∈ saveAsset store m', y.isAddedToLibrary = true := by
  intro y hy
  rw [saveAsset] at hy
  obtain ⟨x, hx, hxy⟩ := List.mem_map.mp hy
  by_cases hid : x.id = m'.id
  · rw [if_pos hid] at hxy
    rw [← hxy]
    exact hm
  · rw [if_neg hid] at hxy
    rw [← hxy]
    exact hall x hx

theorem create_flag (store : List MediaAsset) (d : CreateData) (now start : Nat)
    (s' : List MediaAsset) (m : MediaAsset)
    (h : create false [] store d now start = .ok s' m) :
    m.isAddedToLibrary = true ∧
    ((∀ x ∈ store, x.isAddedToLibrary = true) →
      ∀ y ∈ s', y.isAddedToLibrary = true) := by
  simp only [create] at h
  cases hf : findByUrl false store (normalizeUrlForStorage d.url) with
  | some mm =>
      rw [hf] at h
      simp only [CreateResult.ok.injEq] at h
      obtain ⟨hs', hm'⟩ := h
      constructor
      · rw [← hm']
        exact mergeAsset_isAddedToLibrary mm _ now start
      · intro hall y hy
        rw [← hs'] at hy
        by_cases hu : (mergeAsset mm
            { d with url := normalizeUrlForStorage d.url } now start).2 = true
        · rw [if_pos hu] at hy
          exact saveAsset_allTrue store _ hall
            (mergeAsset_isAddedToLibrary mm _ now start) y hy
        · rw [if_neg hu] at hy
          exact hall y hy
  | none =>
      rw [hf] at h
      rw [if_neg (by simp)] at h
      by_cases hany : ((store ++ []).any
          (fun a => decide (a.url = normalizeUrlForStorage d.url))) = true
      · rw [if_pos hany] at h
        cases hfind2 : findByUrl false (store ++ [])
            (normalizeUrlForStorage d.url) with
        | none =>
            rw [hfind2] at h
            simp at h
        | some mm2 =>
            by_cases hne : normalizeUrlForStorage d.url = ""
            · rw [findByUrl, if_pos hne] at hfind2
              cases hfind2
            · rw [findByUrl_eq_find? _ _ hne] at hfind2
              rw [List.append_nil] at hfind2
              rw [← findByUrl_eq_find? _ _ hne] at hfind2
              rw [hf] at hfind2
              cases hfind2
      · rw [if_neg hany] at h
        simp only [CreateResult.ok.injEq] at h
        obtain ⟨hs', hm'⟩ := h
        constructor
        · rw [← hm']
          rfl
        · intro hall y hy
          rw [← hs'] at hy
          rcases List.mem_append.mp hy with hy1 | hy2
          · rcases List.mem_append.mp hy1 with hy3 | hy4
            · exact hall y hy3
            · cases hy4
          · rw [List.mem_singleton.mp hy2]
            rfl

/-- C8, amended.  An asset's `isAddedToLibrary` flag becomes true on any
reference (create returns a document with the flag set, on both the create and
the merge path), and the create/merge operation and all description operations
never reset the flag: if every stored flag is true beforehand, every stored
flag is true afterwards, and the returned document's flag is true.  (The
claim's "never reset to false by any operation of this core" fails for the
generic `update` operation, which passes the caller's `$set` fields through
verbatim — see the counterexample.) -/
theorem library_flag_monotone :
    (∀ store d now start s' m,
       create false [] store d now start = .ok s' m →
       m.isAddedToLibrary = true ∧
       ((∀ x ∈ store, x.isAddedToLibrary = true) →
         ∀ y ∈ s', y.isAddedToLibrary = true)) ∧
    (∀ store mid ds now start m' s',
       saveDescriptions store mid ds now start = some (m', s') →
       (∀ x ∈ store, x.isAddedToLibrary = true) →
       m'.isAddedToLibrary = true ∧ ∀ y ∈ s', y.isAddedToLibrary = true) ∧
    (∀ store mid text now fresh m' s',
       addDescription store mid text now fresh = some (m', s') →
       (∀ x ∈ store, x.isAddedToLibrary = true) →
       m'.isAddedToLibrary = true ∧ ∀ y ∈ s', y.isAddedToLibrary = true) ∧
    (∀ store mid did m' s',
       removeDescription store mid did = some (m', s') →
       (∀ x ∈ store, x.isAddedToLibrary = true) →
       m'.isAddedToLibrary = true ∧ ∀ y ∈ s', y.isAddedToLibrary = true) ∧
    (∀ store mid did newText m' s',
       updateDescription store mid did newText = some (m', s') →
       (∀ x ∈ store, x.isAddedToLibrary = true) →
       m'.isAddedToLibrary = true ∧ ∀ y ∈ s', y.isAddedToLibrary = true) := by
  refine ⟨fun store d now start s' m h => create_flag store d now start s' m h,
    ?_, ?_, ?_, ?_⟩
  · intro store mid ds now start m' s' h hall
    simp only [saveDescriptions] at h
    cases hf : store.find? (fun m => decide (m.id = mid)) with
    | none => rw [hf] at h; cases h
    | some m =>
        rw [hf] at h
        have hpair := Option.some.inj h
        rw [Prod.mk.injEq] at hpair
        obtain ⟨hm', hs'⟩ := hpair
        have hmm : m.isAddedToLibrary = true :=
          hall m (List.mem_of_find?_eq_some hf)
        have hflag : m'.isAddedToLibrary = true := by
          rw [← hm']
          exact hmm
        exact ⟨hflag, by rw [← hs', hm']; exact saveAsset_allTrue store m' hall hflag⟩
  · intro store mid text now fresh m' s' h hall
    simp only [addDescription] at h
    cases hf : store.find? (fun m => decide (m.id = mid)) with
    | none => rw [hf] at h; cases h
    | some m =>
        rw [hf] at h
        have hpair := Option.some.inj h
        rw [Prod.mk.injEq] at hpair
        obtain ⟨hm', hs'⟩ := hpair
        have hmm : m.isAddedToLibrary = true :=
          hall m (List.mem_of_find?_eq_some hf)
        have hflag : m'.isAddedToLibrary = true := by
          rw [← hm']
          exact hmm
        exact ⟨hflag, by rw [← hs', hm']; exact saveAsset_allTrue store m' hall hflag⟩
  · intro store mid did m' s' h hall
    simp only [removeDescription] at h
    cases hf : store.find? (fun m => decide (m.id = mid)) with
    | none => rw [hf] at h; cases h
    | some m =>
        rw [hf] at h
        have h2 : (match m.descriptions.find? (fun dd => decide (dd.id = did)) with
            | none => (none : Option (MediaAsset × List MediaAsset))
            | some _ => some ({ m with descriptions := m.descriptions.filter (fun dd => decide (dd.id ≠ did)) }, saveAsset store { m with descriptions := m.descriptions.filter (fun dd => decide (dd.id ≠ did)) })) =
            some (m', s') := h
        cases hd : m.descriptions.find? (fun dd => decide (dd.id = did)) with
        | none => rw [hd] at h2; cases h2
        | some dd =>
            rw [hd] at h2
            have hpair := Option.some.inj h2
            rw [Prod.mk.injEq] at hpair
            obtain ⟨hm', hs'⟩ := hpair
            have hmm : m.isAddedToLibrary = true :=
              hall m (List.mem_of_find?_eq_some hf)
            have hflag : m'.isAddedToLibrary = true := by
              rw [← hm']
              exact hmm
            exact ⟨hflag, by rw [← hs', hm']; exact saveAsset_allTrue store m' hall hflag⟩
  · intro store mid did newText m' s' h hall
    simp only [updateDescription] at h
    cases hf : store.find? (fun m => decide (m.id = mid)) with
    | none => rw [hf] at h; cases h
    | some m =>
        rw [hf] at h
        have h2 : (match m.descriptions.find? (fun dd => decide (dd.id = did)) with
            | none => (none : Option (MediaAsset × List MediaAsset))
            | some _ => some ({ m with descriptions := m.descriptions.map (fun dd => if dd.id = did then { dd with text := newText } else dd) }, saveAsset store { m with descriptions := m.descriptions.map (fun dd => if dd.id = did then { dd with text := newText } else dd) })) =
            some (m', s') := h
        cases hd : m.descriptions.find? (fun dd => decide (dd.id = did)) with
        | none => rw [hd] at h2; cases h2
        | some dd =>
            rw [hd] at h2
            have hpair := Option.some.inj h2
            rw [Prod.mk.injEq] at hpair
            obtain ⟨hm', hs'⟩ := hpair
            have hmm : m.isAddedToLibrary = true :=
              hall m (List.mem_of_find?_eq_some hf)
            have hflag : m'.isAddedToLibrary = true := by
              rw [← hm']
              exact hmm
            exact ⟨hflag, by rw [← hs', hm']; exact saveAsset_allTrue store m' hall hflag⟩

/-- Counterexample to C8 as stated: the generic `update` operation can reset a
stored asset's `isAddedToLibrary` flag to false, because `$set` passes the
caller's fields through verbatim. -/
theorem library_flag_counterexample :
    ((update [MediaAsset.mk 3 "image" "/a.png" "" 0 "" [] true 0] 3
        (UpdateFields.mk none none none (some false))).2.map
          (fun m => m.isAddedToLibrary)) = [false] := by decide

/-- Witness for the amended C8 at a concrete merge call on a store whose flags
are all true. -/
theorem library_flag_witness :
    (newAsset { CreateData.mk "image" "/w.png" "" 0 "" [] with
        url := normalizeUrlForStorage "/w.png" } 0 5).isAddedToLibrary = true ∧
    (∀ y ∈ ([] ++ [] ++ [newAsset { CreateData.mk "image" "/w.png" "" 0 "" [] with
        url := normalizeUrlForStorage "/w.png" } 0 5] : List MediaAsset),
      y.isAddedToLibrary = true) := by
  have h := library_flag_monotone.1 [] (CreateData.mk "image" "/w.png" "" 0 "" []) 0 5
    ([] ++ [] ++ [newAsset { CreateData.mk "image" "/w.png" "" 0 "" [] with
      url := normalizeUrlForStorage "/w.png" } 0 5])
    (newAsset { CreateData.mk "image" "/w.png" "" 0 "" [] with
      url := normalizeUrlForStorage "/w.png" } 0 5)
    (by decide)
  exact ⟨h.1, h.2 (by intro x hx; cases hx)⟩

/-! ### Claim C9: created-vs-merged classification -/

/-- C9.  Evaluation of `batchCreate` at the failing input: the store already
holds the asset for `/a/b.png` (created at t = 1000 ms); a batch create for the
same url at t = 1500 ms merges into that record — the store is unchanged and
the returned media is the pre-existing document — yet the result entry carries
`isExisting = false`, because the classification is the elapsed-time heuristic
`now - createdAt < 2000` and not an explicit created-vs-merged boolean (the
single-item `create` returns no such boolean). -/
theorem batch_isExisting_heuristic :
    batchCreate [MediaAsset.mk 0 "image" "/a/b.png" "a.png" 1 "image/png" [] true 1000]
        [CreateData.mk "image" "/a/b.png" "a.png" 1 "image/png" []] 1500 10
      = .ok (⟨[BatchCreateOk.mk "/a/b.png"
              (MediaAsset.mk 0 "image" "/a/b.png" "a.png" 1 "image/png" [] true 1000) false],
            [], 1, 1, 0⟩,
          [MediaAsset.mk 0 "image" "/a/b.png" "a.png" 1 "image/png" [] true 1000], 11) := by
  decide

/-! ### Claim C5: batch isolation -/

/-- An item `batchCreate` rejects in validation: missing kind, missing url, or
an invalid media kind. -/
def malformedCreateItem (item : CreateData) : Prop :=
  item.type = "" ∨ item.url = "" ∨ isValidMediaType item.type = false

/-- An item `batchCreate` accepts and whose upsert cannot fail in the
sequential model. -/
def goodCreateItem (item : CreateData) : Prop :=
  item.type ≠ "" ∧ item.url ≠ "" ∧ isValidMediaType item.type = true ∧
    normalizeUrlForStorage item.url ≠ ""

theorem create_ok (store : List MediaAsset) (d : CreateData) (now ctr : Nat)
    (hne : normalizeUrlForStorage d.url ≠ "") :
    ∃ s m, create false [] store d now ctr = .ok s m := by
  cases hf : findByUrl false store (normalizeUrlForStorage d.url) with
  | some mm =>
      refine ⟨if (mergeAsset mm { d with url := normalizeUrlForStorage d.url } now ctr).2 then saveAsset store (mergeAsset mm { d with url := normalizeUrlForStorage d.url } now ctr).1 else store, (mergeAsset mm { d with url := normalizeUrlForStorage d.url } now ctr).1, ?_⟩
      simp only [create]
      rw [hf]
  | none =>
      have hany : ((store ++ []).any
          (fun a => decide (a.url = normalizeUrlForStorage d.url))) = false := by
        rw [List.any_eq_false]
        intro x hx
        simp only [decide_eq_true_eq]
        rw [List.append_nil] at hx
        refine url_ne_of_find?_none store _ ?_ x hx
        rw [← findByUrl_eq_find? _ _ hne]
        exact hf
      refine ⟨(store ++ []) ++ [newAsset { d with url := normalizeUrlForStorage d.url } now ctr], newAsset { d with url := normalizeUrlForStorage d.url } now ctr, ?_⟩
      simp only [create]
      rw [hf, if_neg (by simp), if_neg (by rw [hany]; simp)]

theorem batchCreateStep_malformed (now : Nat) (st : BatchCreateState)
    (bad : CreateData) (h : malformedCreateItem bad) :
    ∃ msg, batchCreateStep now st bad =
      { st with fails := st.fails ++
          [⟨if bad.url = "" then "unknown" else bad.url, msg⟩] } := by
  by_cases h1 : bad.type = "" ∨ bad.url = ""
  · exact ⟨"Type and URL are required", by simp [batchCreateStep, h1]⟩
  · rcases h with h2 | h2 | h2
    · exact absurd (Or.inl h2) h1
    · exact absurd (Or.inr h2) h1
    · refine ⟨"Invalid file type", ?_⟩
      have hbool : (!isValidMediaType bad.type) = true := by rw [h2]; rfl
      have hu : ¬ bad.url = "" := fun hh => h1 (Or.inr hh)
      have ht : ¬ bad.type = "" := fun hh => h1 (Or.inl hh)
      simp [batchCreateStep, h1, hbool, hu, ht]

theorem batchCreateStep_good (now : Nat) (st : BatchCreateState)
    (item : CreateData) (h : goodCreateItem item) :
    ∃ e store', batchCreateStep now st item =
      { st with
          oks := st.oks ++ [e]
          store := store'
          ctr := st.ctr + 1 + item.descriptions.length } ∧ e.url = item.url := by
  obtain ⟨h1, h2, h3, h4⟩ := h
  obtain ⟨s, m, hc⟩ := create_ok st.store item now st.ctr h4
  have hcond1 : ¬ (item.type = "" ∨ item.url = "") := fun hh => hh.elim h1 h2
  have hbool : (!isValidMediaType item.type) = false := by rw [h3]; rfl
  refine ⟨⟨item.url, m,
    !(decide (now - (if m.createdAt = 0 then now else m.createdAt) < 2000))⟩, s, ?_, rfl⟩
  simp [batchCreateStep, hcond1, hbool, hc]

theorem batchCreateStep_shift (now : Nat) (st : BatchCreateState) (item : CreateData) :
    batchCreateStep now st item =
      ⟨st.oks ++ (batchCreateStep now ⟨[], [], st.store, st.ctr⟩ item).oks,
       st.fails ++ (batchCreateStep now ⟨[], [], st.store, st.ctr⟩ item).fails,
       (batchCreateStep now ⟨[], [], st.store, st.ctr⟩ item).store,
       (batchCreateStep now ⟨[], [], st.store, st.ctr⟩ item).ctr⟩ := by
  cases st with
  | mk oks fails store ctr =>
      by_cases h1 : item.type = "" ∨ item.url = ""
      · simp [batchCreateStep, h1]
      · cases hv : (!isValidMediaType item.type) with
        | true => simp [batchCreateStep, h1, hv]
        | false =>
            cases hc : create false [] store item now ctr with
            | ok s m => simp [batchCreateStep, h1, hv, hc]
            | err => simp [batchCreateStep, h1, hv, hc]

theorem batchCreate_fold_shift (now : Nat) (items : List CreateData) :
    ∀ (oks : List BatchCreateOk) (fails : List BatchFail)
      (store : List MediaAsset) (ctr : Nat),
      items.foldl (batchCreateStep now) ⟨oks, fails, store, ctr⟩ =
        ⟨oks ++ (items.foldl (batchCreateStep now) ⟨[], [], store, ctr⟩).oks,
         fails ++ (items.foldl (batchCreateStep now) ⟨[], [], store, ctr⟩).fails,
         (items.foldl (batchCreateStep now) ⟨[], [], store, ctr⟩).store,
         (items.foldl (batchCreateStep now) ⟨[], [], store, ctr⟩).ctr⟩ := by
  induction items with
  | nil => intro oks fails store ctr; simp [List.foldl]
  | cons item items ih =>
      intro oks fails store ctr
      rw [List.foldl_cons, List.foldl_cons]
      rw [batchCreateStep_shift now ⟨oks, fails, store, ctr⟩ item]
      rw [batchCreateStep_shift now ⟨[], [], store, ctr⟩ item]
      dsimp only
      simp only [List.nil_append]
      set X := batchCreateStep now ⟨[], [], store, ctr⟩ item with hX
      rw [ih (oks ++ X.oks) (fails ++ X.fails) X.store X.ctr]
      rw [ih X.oks X.fails X.store X.ctr]
      simp [List.append_assoc]

theorem batchCreate_fold_good (now : Nat) (items : List CreateData) :
    ∀ (store : List MediaAsset) (ctr : Nat),
      (∀ x ∈ items, goodCreateItem x) →
      (items.foldl (batchCreateStep now) ⟨[], [], store, ctr⟩).fails = [] ∧
      (items.foldl (batchCreateStep now) ⟨[], [], store, ctr⟩).oks.length =
        items.length := by
  induction items with
  | nil => intro store ctr _; exact ⟨rfl, rfl⟩
  | cons item items ih =>
      intro store ctr h
      obtain ⟨e, s', hstep, _⟩ := batchCreateStep_good now ⟨[], [], store, ctr⟩ item
        (h item (List.mem_cons_self item items))
      rw [List.foldl_cons, hstep]
      rw [batchCreate_fold_shift now items ([] ++ [e]) []
        s' (ctr + 1 + item.descriptions.length)]
      obtain ⟨hf, ho⟩ := ih s' (ctr + 1 + item.descriptions.length)
        (fun x hx => h x (List.mem_cons_of_mem item hx))
      constructor
      · simp [hf]
      · simp [ho]

/-- The `batchCreate` half of the amended batch-isolation property. -/
theorem batch_isolation_create (store : List MediaAsset) (now ctr : Nat)
    (pre post : List CreateData) (bad : CreateData)
    (hbad : malformedCreateItem bad)
    (hgood : ∀ x ∈ pre ++ post, goodCreateItem x) :
    ∃ res store' ctr',
      batchCreate store (pre ++ [bad] ++ post) now ctr = .ok (res, store', ctr') ∧
      res.successCount = (pre ++ post).length ∧
      res.failCount = 1 ∧
      (∃ msg, res.failed =
        [⟨if bad.url = "" then "unknown" else bad.url, msg⟩]) ∧
      res.total = pre.length + post.length + 1 ∧
      (pre ++ post ≠ [] →
        ∃ res₂, batchCreate store (pre ++ post) now ctr = .ok (res₂, store', ctr') ∧
          res₂.success = res.success ∧ res₂.failed = []) := by
  obtain ⟨hfp, hop⟩ := batchCreate_fold_good now pre store ctr
    (fun x hx => hgood x (List.mem_append_left post hx))
  cases hsp : pre.foldl (batchCreateStep now) ⟨[], [], store, ctr⟩ with
  | mk oksP failsP sP cP =>
    rw [hsp] at hfp hop
    simp only at hfp hop
    subst hfp
    obtain ⟨msg, hbadstep⟩ := batchCreateStep_malformed now ⟨oksP, [], sP, cP⟩ bad hbad
    obtain ⟨hfq, hoq⟩ := batchCreate_fold_good now post sP cP
      (fun x hx => hgood x (List.mem_append_right pre hx))
    cases hsq : post.foldl (batchCreateStep now) ⟨[], [], sP, cP⟩ with
    | mk oksQ failsQ sQ cQ =>
      rw [hsq] at hfq hoq
      simp only at hfq hoq
      subst hfq
      have hfold1 : (pre ++ [bad] ++ post).foldl (batchCreateStep now)
          ⟨[], [], store, ctr⟩ =
          ⟨oksP ++ oksQ,
           [⟨if bad.url = "" then "unknown" else bad.url, msg⟩],
           sQ, cQ⟩ := by
        rw [List.foldl_append, List.foldl_append, hsp, List.foldl_cons, List.foldl_nil,
          hbadstep]
        dsimp only
        simp only [List.nil_append]
        rw [batchCreate_fold_shift now post oksP
          [BatchFail.mk (if bad.url = "" then "unknown" else bad.url) msg] sP cP]
        rw [hsq]
        simp
      have hfold2 : (pre ++ post).foldl (batchCreateStep now) ⟨[], [], store, ctr⟩ =
          ⟨oksP ++ oksQ, [], sQ, cQ⟩ := by
        rw [List.foldl_append, hsp]
        rw [batchCreate_fold_shift now post oksP [] sP cP]
        rw [hsq]
        simp
      refine ⟨⟨oksP ++ oksQ,
          [⟨if bad.url = "" then "unknown" else bad.url, msg⟩],
          (pre ++ [bad] ++ post).length, (oksP ++ oksQ).length, 1⟩, sQ, cQ, ?_, ?_, ?_,
          ⟨msg, rfl⟩, ?_, ?_⟩
      · rw [batchCreate, if_neg (by simp)]
        rw [hfold1]
        simp
      · simp only [List.length_append, hop, hoq]
      · rfl
      · simp only [List.length_append, List.length_cons, List.length_nil]
        omega
      · intro hne
        refine ⟨⟨oksP ++ oksQ, [], (pre ++ post).length, (oksP ++ oksQ).length, 0⟩,
          ?_, rfl, rfl⟩
        rw [batchCreate, if_neg (by simpa using hne)]
        rw [hfold2]
        simp

/-- An item `batchSaveDescriptions` rejects in validation: missing media id or
a descriptions payload that is not an array. -/
def malformedSaveItem (item : SaveDescItem) : Prop :=
  item.id = none ∨ item.descriptions = none

/-- An item `batchSaveDescriptions` accepts and whose reconciliation resolves
an existing asset (relative to the ids present in the store). -/
def goodSaveItem (ids : List Nat) (item : SaveDescItem) : Prop :=
  ∃ i ds, item.id = some i ∧ item.descriptions = some ds ∧ i ∈ ids

theorem saveAsset_map_id (store : List MediaAsset) (m' : MediaAsset) :
    (saveAsset store m').map MediaAsset.id = store.map MediaAsset.id := by
  rw [saveAsset, List.map_map]
  apply List.map_congr_left
  intro x _
  by_cases hx : x.id = m'.id
  · simp [Function.comp, hx]
  · simp [Function.comp, hx]

theorem batchSaveStep_malformed (now : Nat) (st : BatchSaveState)
    (bad : SaveDescItem) (h : malformedSaveItem bad) :
    ∃ msg, batchSaveStep now st bad =
      { st with fails := st.fails ++ [⟨bad.id, msg⟩] } := by
  cases hid : bad.id with
  | none => exact ⟨"Media ID is required", by simp [batchSaveStep, hid]⟩
  | some i =>
      rcases h with h1 | h2
      · rw [hid] at h1; cases h1
      · exact ⟨"Descriptions must be an array", by simp [batchSaveStep, hid, h2]⟩

theorem batchSaveStep_good (now : Nat) (st : BatchSaveState)
    (item : SaveDescItem) (h : goodSaveItem (st.store.map MediaAsset.id) item) :
    ∃ e store' dctr, batchSaveStep now st item =
      { st with
          oks := st.oks ++ [e]
          store := store'
          ctr := st.ctr + dctr } ∧
      store'.map MediaAsset.id = st.store.map MediaAsset.id := by
  obtain ⟨i, ds, hid, hds, hmem⟩ := h
  obtain ⟨x, hx, hxid⟩ := List.mem_map.mp hmem
  have hsome : ((st.store.find? (fun m => decide (m.id = i))).isSome) :=
    List.find?_isSome.mpr ⟨x, hx, decide_eq_true hxid⟩
  obtain ⟨m, hm⟩ := Option.isSome_iff_exists.mp hsome
  have hsd : saveDescriptions st.store i ds now st.ctr =
      some ({ m with descriptions := reconcileDescriptions m.descriptions ds now st.ctr },
        saveAsset st.store
          { m with descriptions := reconcileDescriptions m.descriptions ds now st.ctr }) := by
    simp only [saveDescriptions]
    rw [hm]
  refine ⟨⟨i, { m with descriptions := reconcileDescriptions m.descriptions ds now st.ctr }⟩,
    saveAsset st.store
      { m with descriptions := reconcileDescriptions m.descriptions ds now st.ctr },
    ds.length, ?_, saveAsset_map_id st.store _⟩
  simp [batchSaveStep, hid, hds, hsd]

theorem batchSaveStep_shift (now : Nat) (st : BatchSaveState) (item : SaveDescItem) :
    batchSaveStep now st item =
      ⟨st.oks ++ (batchSaveStep now ⟨[], [], st.store, st.ctr⟩ item).oks,
       st.fails ++ (batchSaveStep now ⟨[], [], st.store, st.ctr⟩ item).fails,
       (batchSaveStep now ⟨[], [], st.store, st.ctr⟩ item).store,
       (batchSaveStep now ⟨[], [], st.store, st.ctr⟩ item).ctr⟩ := by
  cases st with
  | mk oks fails store ctr =>
      cases hid : item.id with
      | none => simp [batchSaveStep, hid]
      | some i =>
          cases hds : item.descriptions with
          | none => simp [batchSaveStep, hid, hds]
          | some ds =>
              cases hsd : saveDescriptions store i ds now ctr with
              | none => simp [batchSaveStep, hid, hds, hsd]
              | some p =>
                  obtain ⟨m', store'⟩ := p
                  simp [batchSaveStep, hid, hds, hsd]

theorem batchSave_fold_shift (now : Nat) (items : List SaveDescItem) :
    ∀ (oks : List BatchSaveOk) (fails : List BatchSaveFail)
      (store : List MediaAsset) (ctr : Nat),
      items.foldl (batchSaveStep now) ⟨oks, fails, store, ctr⟩ =
        ⟨oks ++ (items.foldl (batchSaveStep now) ⟨[], [], store, ctr⟩).oks,
         fails ++ (items.foldl (batchSaveStep now) ⟨[], [], store, ctr⟩).fails,
         (items.foldl (batchSaveStep now) ⟨[], [], store, ctr⟩).store,
         (items.foldl (batchSaveStep now) ⟨[], [], store, ctr⟩).ctr⟩ := by
  induction items with
  | nil => intro oks fails store ctr; simp [List.foldl]
  | cons item items ih =>
      intro oks fails store ctr
      rw [List.foldl_cons, List.foldl_cons]
      rw [batchSaveStep_shift now ⟨oks, fails, store, ctr⟩ item]
      rw [batchSaveStep_shift now ⟨[], [], store, ctr⟩ item]
      dsimp only
      simp only [List.nil_append]
      set X := batchSaveStep now ⟨[], [], store, ctr⟩ item with hX
      rw [ih (oks ++ X.oks) (fails ++ X.fails) X.store X.ctr]
      rw [ih X.oks X.fails X.store X.ctr]
      simp [List.append_assoc]

theorem batchSave_fold_good (now : Nat) (items : List SaveDescItem) :
    ∀ (store : List MediaAsset) (ctr : Nat),
      (∀ x ∈ items, goodSaveItem (store.map MediaAsset.id) x) →
      (items.foldl (batchSaveStep now) ⟨[], [], store, ctr⟩).fails = [] ∧
      (items.foldl (batchSaveStep now) ⟨[], [], store, ctr⟩).oks.length =
        items.length ∧
      (items.foldl (batchSaveStep now) ⟨[], [], store, ctr⟩).store.map MediaAsset.id =
        store.map MediaAsset.id := by
  induction items with
  | nil => intro store ctr _; exact ⟨rfl, rfl, rfl⟩
  | cons item items ih =>
      intro store ctr h
      obtain ⟨e, s', dctr, hstep, hids⟩ := batchSaveStep_good now ⟨[], [], store, ctr⟩ item
        (h item (List.mem_cons_self item items))
      rw [List.foldl_cons, hstep]
      rw [batchSave_fold_shift now items ([] ++ [e]) [] s' (ctr + dctr)]
      have hids' : s'.map MediaAsset.id = store.map MediaAsset.id := hids
      obtain ⟨hf, ho, hi⟩ := ih s' (ctr + dctr)
        (fun x hx => by rw [hids']; exact h x (List.mem_cons_of_mem item hx))
      refine ⟨by simp [hf], by simp [ho], ?_⟩
      simp only
      rw [hi, hids']

/-- The `batchSaveDescriptions` half of the amended batch-isolation property. -/
theorem batch_isolation_save (store : List MediaAsset) (now ctr : Nat)
    (pre post : List SaveDescItem) (bad : SaveDescItem)
    (hbad : malformedSaveItem bad)
    (hgood : ∀ x ∈ pre ++ post, goodSaveItem (store.map MediaAsset.id) x) :
    ∃ res store' ctr',
      batchSaveDescriptions store (pre ++ [bad] ++ post) now ctr =
        .ok (res, store', ctr') ∧
      res.successCount = (pre ++ post).length ∧
      res.failCount = 1 ∧
      (∃ msg, res.failed = [⟨bad.id, msg⟩]) ∧
      res.total = pre.length + post.length + 1 ∧
      (pre ++ post ≠ [] →
        ∃ res₂, batchSaveDescriptions store (pre ++ post) now ctr =
          .ok (res₂, store', ctr') ∧
          res₂.success = res.success ∧ res₂.failed = []) := by
  obtain ⟨hfp, hop, hip⟩ := batchSave_fold_good now pre store ctr
    (fun x hx => hgood x (List.mem_append_left post hx))
  cases hsp : pre.foldl (batchSaveStep now) ⟨[], [], store, ctr⟩ with
  | mk oksP failsP sP cP =>
    rw [hsp] at hfp hop hip
    simp only at hfp hop hip
    subst hfp
    obtain ⟨msg, hbadstep⟩ := batchSaveStep_malformed now ⟨oksP, [], sP, cP⟩ bad hbad
    obtain ⟨hfq, hoq, hiq⟩ := batchSave_fold_good now post sP cP
      (fun x hx => by rw [hip]; exact hgood x (List.mem_append_right pre hx))
    cases hsq : post.foldl (batchSaveStep now) ⟨[], [], sP, cP⟩ with
    | mk oksQ failsQ sQ cQ =>
      rw [hsq] at hfq hoq hiq
      simp only at hfq hoq hiq
      subst hfq
      have hfold1 : (pre ++ [bad] ++ post).foldl (batchSaveStep now)
          ⟨[], [], store, ctr⟩ =
          ⟨oksP ++ oksQ, [⟨bad.id, msg⟩], sQ, cQ⟩ := by
        rw [List.foldl_append, List.foldl_append, hsp, List.foldl_cons, List.foldl_nil,
          hbadstep]
        dsimp only
        simp only [List.nil_append]
        rw [batchSave_fold_shift now post oksP [BatchSaveFail.mk bad.id msg] sP cP]
        rw [hsq]
        simp
      have hfold2 : (pre ++ post).foldl (batchSaveStep now) ⟨[], [], store, ctr⟩ =
          ⟨oksP ++ oksQ, [], sQ, cQ⟩ := by
        rw [List.foldl_append, hsp]
        rw [batchSave_fold_shift now post oksP [] sP cP]
        rw [hsq]
        simp
      refine ⟨⟨oksP ++ oksQ, [⟨bad.id, msg⟩],
          (pre ++ [bad] ++ post).length, (oksP ++ oksQ).length, 1⟩, sQ, cQ, ?_, ?_, ?_,
          ⟨msg, rfl⟩, ?_, ?_⟩
      · rw [batchSaveDescriptions, if_neg (by simp)]
        rw [hfold1]
        simp
      · simp only [List.length_append, hop, hoq]
      · rfl
      · simp only [List.length_append, List.length_cons, List.length_nil]
        omega
      · intro hne
        refine ⟨⟨oksP ++ oksQ, [], (pre ++ post).length, (oksP ++ oksQ).length, 0⟩,
          ?_, rfl, rfl⟩
        rw [batchSaveDescriptions, if_neg (by simpa using hne)]
        rw [hfold2]
        simp

/-- C5, amended.  Batch isolation for both batch operations: for a batch
`pre ++ [bad] ++ post` where `bad` is the single malformed item and the other
items are well-formed (and, for save-descriptions, resolve existing assets),
the call succeeds with `successCount = N - 1`, `failCount = 1`, a single
failure entry identifying the malformed item by its item key, and every other
item's result — the success list, the final store and the id counter — is the
same as in the same batch with the malformed item removed; one item's failure
never discards or rolls back another item's committed result.  (The original
claim's "the same as if it had been submitted alone" fails because sequential
valid items interact through the store, see the counterexample.) -/
theorem batch_isolation :
    (∀ (store : List MediaAsset) (now ctr : Nat) (pre post : List CreateData)
       (bad : CreateData), malformedCreateItem bad →
       (∀ x ∈ pre ++ post, goodCreateItem x) →
       ∃ res store' ctr',
         batchCreate store (pre ++ [bad] ++ post) now ctr = .ok (res, store', ctr') ∧
         res.successCount = (pre ++ post).length ∧
         res.failCount = 1 ∧
         (∃ msg, res.failed =
           [⟨if bad.url = "" then "unknown" else bad.url, msg⟩]) ∧
         res.total = pre.length + post.length + 1 ∧
         (pre ++ post ≠ [] →
           ∃ res₂, batchCreate store (pre ++ post) now ctr = .ok (res₂, store', ctr') ∧
             res₂.success = res.success ∧ res₂.failed = [])) ∧
    (∀ (store : List MediaAsset) (now ctr : Nat) (pre post : List SaveDescItem)
       (bad : SaveDescItem), malformedSaveItem bad →
       (∀ x ∈ pre ++ post, goodSaveItem (store.map MediaAsset.id) x) →
       ∃ res store' ctr',
         batchSaveDescriptions store (pre ++ [bad] ++ post) now ctr =
           .ok (res, store', ctr') ∧
         res.successCount = (pre ++ post).length ∧
         res.failCount = 1 ∧
         (∃ msg, res.failed = [⟨bad.id, msg⟩]) ∧
         res.total = pre.length + post.length + 1 ∧
         (pre ++ post ≠ [] →
           ∃ res₂, batchSaveDescriptions store (pre ++ post) now ctr =
             .ok (res₂, store', ctr') ∧
             res₂.success = res.success ∧ res₂.failed = [])) :=
  ⟨fun store now ctr pre post bad hbad hgood =>
     batch_isolation_create store now ctr pre post bad hbad hgood,
   fun store now ctr pre post bad hbad hgood =>
     batch_isolation_save store now ctr pre post bad hbad hgood⟩

/-- Counterexample to C5 as stated: in the batch `[A, bad, A]` with
`A = {image, /x.png, descriptions [" d "]}`, the third item's result has two
stored descriptions (it merged into the record the first item created and
appended the trimmed text), while submitted alone on the same initial store it
creates a fresh record with one description — so its result is not "the same
as if it had been submitted alone". -/
theorem batch_isolation_counterexample :
    (match batchCreate [] [CreateData.mk "image" "/x.png" "" 0 "" [" d "],
        CreateData.mk "" "" "" 0 "" [],
        CreateData.mk "image" "/x.png" "" 0 "" [" d "]] 0 0 with
     | .ok (r, _, _) => r.success.map (fun e => e.media.descriptions.length)
     | .error _ => []) = [1, 2] ∧
    (match batchCreate [] [CreateData.mk "image" "/x.png" "" 0 "" [" d "]] 0 0 with
     | .ok (r, _, _) => r.success.map (fun e => e.media.descriptions.length)
     | .error _ => []) = [1] :=
  ⟨by decide, by decide⟩

/-- Witness for the amended C5 at a concrete three-item create batch. -/
theorem batch_isolation_witness :
    ∃ res store' ctr',
      batchCreate [] ([CreateData.mk "image" "/x.png" "" 0 "" []] ++
          [CreateData.mk "" "" "" 0 "" []] ++
          [CreateData.mk "image" "/y.png" "" 0 "" []]) 0 0 = .ok (res, store', ctr') ∧
      res.successCount = ([CreateData.mk "image" "/x.png" "" 0 "" []] ++
          [CreateData.mk "image" "/y.png" "" 0 "" []]).length ∧
      res.failCount = 1 ∧
      (∃ msg, res.failed =
        [⟨if (CreateData.mk "" "" "" 0 "" []).url = "" then "unknown"
          else (CreateData.mk "" "" "" 0 "" []).url, msg⟩]) ∧
      res.total = [CreateData.mk "image" "/x.png" "" 0 "" []].length +
        [CreateData.mk "image" "/y.png" "" 0 "" []].length + 1 ∧
      ([CreateData.mk "image" "/x.png" "" 0 "" []] ++
          [CreateData.mk "image" "/y.png" "" 0 "" []] ≠ [] →
        ∃ res₂, batchCreate [] ([CreateData.mk "image" "/x.png" "" 0 "" []] ++
            [CreateData.mk "image" "/y.png" "" 0 "" []]) 0 0 = .ok (res₂, store', ctr') ∧
          res₂.success = res.success ∧ res₂.failed = []) :=
  batch_isolation.1 [] 0 0 [CreateData.mk "image" "/x.png" "" 0 "" []]
    [CreateData.mk "image" "/y.png" "" 0 "" []] (CreateData.mk "" "" "" 0 "" [])
    (by right; left; rfl)
    (by
      intro x hx
      rcases List.mem_cons.mp hx with rfl | hx2
      · exact ⟨by decide, by decide, by decide, by decide⟩
      · rcases List.mem_cons.mp hx2 with rfl | hx3
        · exact ⟨by decide, by decide, by decide, by decide⟩
        · cases hx3)

end MediaRepo
